import Mathlib

/-!
# Verification of the hierarchical federated-learning aggregation pipeline

A shallow embedding, in Lean 4, of the Python sources of the `fedshareM3`
repository (`shamir_secret_sharing.py`, `hierfognode.py`, `hiervalidator.py`,
`hierleadserver.py`, `hierta.py`, `config.py`), together with proofs and
refutations of the specified properties.

Conventions of the embedding:

* Python machine integers and NumPy unsigned arithmetic are modelled with
  `Nat`/`Int` and explicit `% 2^w` reductions at the points where the source
  wraps (`uint8` arithmetic is reduced mod 256, `uint16` accumulators mod
  65536; the reductions commute, which the proofs use).
* Python's `%` on `int` is `Int.emod`, and `//` is `Int.fdiv`.
* Fallible Python code (raised exceptions) is modelled with `Option`/`Except`.
* Randomness drawn from Python's global `random` generator is modelled by an
  explicit coefficient tape passed as a function argument; randomness drawn
  from the seeded `np.random.RandomState(42)` is modelled by `Np.rng42u8`, a
  faithful implementation of the Mersenne Twister byte stream that NumPy
  produces for that constant seed.
* Network sends are modelled as outputs of the step functions; HTTP success
  is an explicit boolean input.
-/

/-! ## MT19937: the `np.random.RandomState(42)` stream

`OptimizedShamirSecretSharing.__init__` seeds `self.rng = np.random.RandomState(42)`
(`shamir_secret_sharing.py` line 125).  For an integer seed, NumPy's legacy
`RandomState` seeds the Mersenne Twister with `init_genrand(seed)`, and
`randint(0, 256, ..., dtype=np.uint8)` with a full 8-bit range serves the
little-endian bytes of successive 32-bit outputs.  We model the 624-word
state as a single natural number holding 32-bit limbs. -/

namespace Np

/-- Truncate to a 32-bit word. -/
def w32 (x : Nat) : Nat := x % 4294967296

/-- Read 32-bit limb `i` of a packed state. -/
def mtGet (s i : Nat) : Nat := (s >>> (32 * i)) % 4294967296

/-- Write 32-bit limb `i` of a packed state. -/
def mtSet (s i v : Nat) : Nat := s - mtGet s i <<< (32 * i) + v <<< (32 * i)

/-- Apply `f` at the indices `start, start+1, …, start+len-1`, in that order,
to an accumulator; `fuel` bounds the recursion (structurally).  Defined by
binary splitting so that kernel evaluation of a long loop needs only
logarithmic stack depth; `foldIdx_eq_foldl` below shows `foldIdx` is the
ordinary sequential left fold of the source's `for` loops. -/
def foldIdxAux (f : Nat → Nat → Nat) : Nat → Nat → Nat → Nat → Nat
  | 0, _, _, st => st
  | fuel + 1, start, len, st =>
    if len = 0 then st
    else if len = 1 then f start st
    else
      let h := len / 2
      foldIdxAux f fuel (start + h) (len - h) (foldIdxAux f fuel start h st)

/-- Sequential fold of `f` over `start, …, start+len-1`. -/
def foldIdx (f : Nat → Nat → Nat) (start len : Nat) (st : Nat) : Nat :=
  foldIdxAux f len start len st

theorem foldIdxAux_eq (f : Nat → Nat → Nat) (fuel : Nat) :
    ∀ start len st, len ≤ fuel →
      foldIdxAux f fuel start len st =
        (List.range' start len).foldl (fun s i => f i s) st := by
  induction fuel with
  | zero =>
    intro start len st hlen
    interval_cases len
    simp [foldIdxAux]
  | succ fuel ih =>
    intro start len st hlen
    match len, hlen with
    | 0, _ => simp [foldIdxAux]
    | 1, _ => simp [foldIdxAux, List.range']
    | (n + 2), hlen =>
      have h2 : ¬ n + 2 = 0 := by omega
      have h3 : ¬ n + 2 = 1 := by omega
      rw [foldIdxAux, if_neg h2, if_neg h3]
      show foldIdxAux f fuel (start + (n + 2) / 2) (n + 2 - (n + 2) / 2)
          (foldIdxAux f fuel start ((n + 2) / 2) st) = _
      have ha : (n + 2) / 2 ≤ fuel := by omega
      have hb : n + 2 - (n + 2) / 2 ≤ fuel := by omega
      rw [ih _ _ _ ha, ih _ _ _ hb]
      rw [show (List.range' start (n + 2)) =
          List.range' start ((n + 2) / 2) ++
            List.range' (start + (n + 2) / 2) (n + 2 - (n + 2) / 2) by
        rw [show start + (n + 2) / 2 = start + 1 * ((n + 2) / 2) by omega,
          List.range'_append]
        congr 1
        omega]
      rw [List.foldl_append]

/-- `foldIdx` is the sequential left fold over the index range, i.e. exactly
the source's `for i in range(len)` accumulation. -/
theorem foldIdx_eq_foldl (f : Nat → Nat → Nat) (len : Nat) (st : Nat) :
    foldIdx f 0 len st = (List.range len).foldl (fun s i => f i s) st := by
  rw [foldIdx, foldIdxAux_eq f len 0 len st le_rfl, List.range_eq_range']

/-- Splitting a sequential fold into two consecutive pieces. -/
theorem foldIdx_add (f : Nat → Nat → Nat) (start a b st : Nat) :
    foldIdx f start (a + b) st = foldIdx f (start + a) b (foldIdx f start a st) := by
  rw [foldIdx, foldIdx, foldIdx, foldIdxAux_eq f (a + b) _ _ _ le_rfl,
    foldIdxAux_eq f a _ _ _ le_rfl, foldIdxAux_eq f b _ _ _ le_rfl,
    ← List.foldl_append, show start + a = start + 1 * a by omega,
    List.range'_append, Nat.add_comm a b]

/-- One update step of the `init_genrand` seeding loop. -/
def mtInitF : Nat → Nat → Nat := fun k st =>
  let i := k + 1
  let prev := mtGet st k
  mtSet st i (w32 (1812433253 * (prev ^^^ (prev >>> 30)) + i))

/-- `init_genrand(seed)`: the initial 624-word Mersenne Twister state. -/
def mtInitGenrand (seed : Nat) : Nat :=
  foldIdx mtInitF 0 623 (mtSet 0 0 (w32 seed))

/-- One limb update of a generation round of the twister (in place, as in the
reference code: index `(i+397) % 624` reads the already-updated limb once
`i ≥ 227`). -/
def mtTwistF : Nat → Nat → Nat := fun i s =>
  let y := (mtGet s i &&& 0x80000000) ||| (mtGet s ((i + 1) % 624) &&& 0x7FFFFFFF)
  let v := mtGet s ((i + 397) % 624) ^^^ (y >>> 1) ^^^
    (if y % 2 = 1 then 0x9908B0DF else 0)
  mtSet s i v

/-- One full generation round (twist) of the Mersenne Twister. -/
def mtTwist (st : Nat) : Nat :=
  foldIdx mtTwistF 0 624 st

/-- The MT19937 output tempering. -/
def mtTemper (y0 : Nat) : Nat :=
  let y1 := y0 ^^^ (y0 >>> 11)
  let y2 := y1 ^^^ ((y1 <<< 7) &&& 0x9D2C5680)
  let y3 := y2 ^^^ ((y2 <<< 15) &&& 0xEFC60000)
  y3 ^^^ (y3 >>> 18)

/-- State of the seed-42 generator after `n + 1` twists. -/
def mtState42 : Nat → Nat
  | 0 => mtTwist (mtInitGenrand 42)
  | n + 1 => mtTwist (mtState42 n)

/-- The `i`-th 32-bit output of `np.random.RandomState(42)`. -/
def mtOut42 (i : Nat) : Nat := mtTemper (mtGet (mtState42 (i / 624)) (i % 624))

/-- The `i`-th byte of the `randint(0, 256, ..., dtype=np.uint8)` stream of
`np.random.RandomState(42)`: byte `i % 4` (little endian) of output `i / 4`. -/
def rng42u8 (i : Nat) : Nat := (mtOut42 (i / 4) >>> (8 * (i % 4))) % 256

/-- Checkpoint: the packed Mersenne Twister state after 250 steps of `init_genrand(42)`. -/
def mtCkI1 : Nat := 543511133913879541467217617342620839332132949805592096952137901417286689386905809430413867691116559028811414426287230785706938191695468486082900181824396920989357667629259892070077896203100787287771455405120064569746388230355884955376661604295311418551297783775409190557612017168841791514338582900145438039985790123317191585872311382580212265086364718310325219896165130655136950837399732679689864872811684756009513974883026016052007203280716170523710221951814559611393397488317585161969684835381863687918282590754992151153602370629840075249997049136345878177984690791946867920802791930142489612679843321162756590565587497178163834784757365895847420121281600207774314983521785152457722846155497953674760246578935210703263723598545322523975784784815243483578001632248343471351840845143009702598047701775462560700711100060261526767694733767428126610516385988020763572269410481029800365192351443046888316457233721208293176663427049020685722945915975713082676570694484916489655057499081032997665870505025545628465586225338351801236623031073566844657226350940296188110547696885577822605775669527293679852103075522450476748687647710177988494233705891482225747654311654850135754069260419111142887058608882435109649317167524574332595315022412803283703576429919840110241304892617809998953808245313052680185566826312528647225381934941787243848375463548736477790198641039098282044599317950493087611306282519416526225072772363267737595647351380993370966298547583727043794702524476660916227830883025008480876183120033323568904412630154370507987434675928651500072317967862286930752116940654534190606747072754720952288062455190321422527650755974430145083147209769098276403353141313026496776650424479341278686114705989497488199265855582051444317030023333826563801170700628558199158379252644177970006448345690653324954035801727111538427242823254415547620850770431307725354952410313029912307106891609434354636287512036779160718781000844590463121448387232191410872182585378219382194679448228162252092179652688788793270902392961047291064348302300834971758496866145491348233262586841651420041876159770757087944479388960911741810893025285025187550749537265816444027804062174485218825537963849009355833793392569567969059018640100458434502087446496070923468931410205268978905077880999995039575532567619526261192228417454661358530833943841683297896196641756919453300370988988312771756057918615745239875489376656965312143901801773179260066857002

/-- Checkpoint: after 500 steps of `init_genrand(42)`. -/
def mtCkI2 : Nat := 1373498505443329582818977317651305947939122110369853107553314231713850753647373872491406872643549155621262712342802403908064229350779246060615896196697608217588150017738443501160086296233501616544071149490485836246265308971852105718371409654836777211951416396383117395612903761792489393052446468604786091978792779242949708363774486132606642356847761269758098171342980773777979020616191123253582533957241847465111800857256424259947782940458498335759156539396055605171711253024530691560625935519532339104199885392584275445839465412067148884639196759072608656062147965163574031265424192148734348599526749617405506488881502866557710834054115876175653542141686135605584214388251930791046965623447825201778679212467497127608124306112635571953010713891493836860969045016784407790524557366708450741762042732127559753685581175835300425520355109527840047194770052066957314901722776775698946564154800819824399256500183587110598621194987294124516872315936881540967068518390302586996587666891286111285719909858302688880423119246183348446670034806036302811566210249979434778036009463558943195326079954709714232304345586879888184880750906963705982806655463326413911101352242350262679228560663393476382458998549603567883386571486287701411240817103602798358163106515002354942371745929000456100421203195193648820801754156039498788617044543723730559367498804135510985175105506378195915302953527632531307611708427970779264673080620771814451742108634344787469798598890023620537703461765987035372476487128662551569776727658856122680023448010578899125102947231774055273716510078089744599195296923096483675506122214753484949576097148403922858325410629984887990853069632867533092167659750404086142271982694075870262630709856417279559673481370732477003746408482646156807254699779285687620577513016673814649271756621232093483174769327876123204747447240234670487436519792339337734384778235052591645470284886886657650694872616545689303874418112656286696286475041006530323767763126573434649569765917443335798441249121264916567450063519311287405170711188718676206716391619385812822013521293420042902275288606995543913119029615990341467347980435265377408301019888230522668025052365152513430714151934792888028039497957702764576409562101586356388820809236322220257670531594790571627977320447402403318347988496115066980316749776999932934867488949389272479008207733090143146982989438026485298669197282154383824076539796799682997455846367360714766281038181462057128303093668506093220619824398196365517560577833684184887199460996548640091577548886859020800768659409491548025793109825906657324660028781727936754193444394267580425145733943304472830699056864323356161711828906579347065633354641136780469702894595441822763689229169510413128300770787047505025746636858842457142218466895291589641629771572681136375953286913221378528835517208923430044260614827320390167944606252211964511937656381906508728510040574923900014720406745616094198527142536159143196620873264152245374914150611269766610743121467270856432309857120073799062623261250144064925640590827400463008693213960996220155248675851003406373591469871193928985258383222221410266053334935049535103440631628348536413004951076118742780216532568994836147642972647523062015106620920752650960557415770513905939777491585310759936280765081851928285060051824328369612152055988215849534674536245731085875304518374852674172698601094559491914778725228797800821175241164572221346071108902061130646190744085871474864829436535459943684221647760633228305869523582708846079411710923979305574405126042194486575938257867654050720268394332943477274907743311853076156064240914067796227687341426466946344862160509337945488519491909413183792274580744453997176688165221264400701008377859956143739300977566282305183783311835322453063953220731563108494805039248269149832113005241429253112753254897313448222205269146746198676482537568042113066919486401543908032461099277313467310844848502572237487980805750246689182996503607151435983258808857366340715606606864106790147415050822734818744613528756389389198395090188068141927946806993285210981561891048348882630900702210709224241532899898047337269973733429175443467836924184416478943717840925555217339078800772615532042520621378134491902692345087016063002040368432076648442418408996327488596230716580368488142655832054030934709046528758609520062734784631107939013858811121156723120025981254583461257131844268410060605531471946765257749566439911254925792913783405863007092054398509732548007117659337527967533602033034896814577224836192326374073982850137413850759969630295539024642213776027241483088171698320715801592956667914483431531039092287841691174325416341217468644325025442548498145501906191765761815687344329019680335957653885611970650685367673097852535288528560817383957064405330942815153186668617344206643948360756638848446874539693173317808376087569501305166449738721519887974442

/-- The full `init_genrand(42)` state (623 update steps). -/
def mtCkI3 : Nat := 576530615885411601245301592000665333995298971017035641151605743016014334390650357488162233615613294480555991590699430476495171072426114313754971974907122608682506805825645685212013539160435067384252499936084402767867918598201238710655243095901560006202250696161753671504002112942893302852654704316082246928744477343509059895338253102415589992057604721980525492895235696084227080387663265009553307542345390327279676811451023833039642822734639964143263747926140075292317849149026937235167824813083534485045872854420312077309261199897317801034297595956824327845257587766424881288040833618951604830463528855869001151680156107922877149238558221011630989560841929541854241712001991022762936785363997391915822090332985557480211216674160250015202883733458406524908329036638929702735084197423288972025337476268141826851413799841232297255920517739888578376882611916118372671888366476747290151457462026314683470054588642315790413163736484543351859775203916002114474162800537206645405518601810316749074949333578090844588203126659609298516433249492992629888003282476073676981875730151689402516080776808364459851846498640479442849387056034090610928754206039233078643938276139263965744111752134625786991488662909952376821456751292053964024999417019856270760980261405620319177191873948693620890870052752156252998051666553615821281664364669997925700235478436079979984333918991246971954258095869173048058234857599241416042376233471504600166522995501129680413767190782405824437152132043448138580964774433144699321440165335427127209717876907803827745323706386024551518531532417674071738625276513880615056749641745155383328206239052382868050030922288875137978955405655433508720719321653328684792107812743380481418392596218371917343819325269019518354835748397733338013129260687207177613392826042874394007359750610712519235007903759930685281018907329762068058792520029493116773238939716993790495011749111185393380500044026963359718309069644288715393930978335965268466170730885859974888180628595358370827339639823491041746583009682675355648804933723638577761480056317817597308220742269167426729595665732030506356460883927938697317510016392211302666254828689244375938108745263786691814635707011096663667077745888598210413360812888798365857248289428238709709617049337295154831718161124148115350121187853089118581950844054128009285439896965132893557434066426143552091078035395569746518313284303574136780256546453528718040719664452518445663927454987913833822061947348244659034788076593508691171709923225688133045270829160082099889126937609640862937637915508140791743875956528569809133908327340939669524864131745337286937500639354896642097082407829129341261009545051058983154571153143911518880377729987656019209591634659688616263228504052223514885823495028162495626980696404254891007155226372356430400496436157876884176534684557681014992964032139485733782760420159769142338696408877985805929676972891306926380320480004214641757919869289477596062845756705950031601188160608734991829696112694591825987042582950147160452585287086366174568482377041337089764810331549414590942258931890956566577178819723769280488458085825034655198390614948926755792251809293136019040081876291972424907172822817984364161517519075418927244049724827041492646698453993698076615705139915395054664346096616556160406377813543234659063888596846382750095824799694623742061750291684920115971784782078560989403596370524614347276164241605123667835879083535158872870164968261089553575251494653192440479520335412801547872445680928005403846256484933052779175403357054941875051953819176618666973714519554628620392047064960854204447761602940409717691530809952108883722192723188826652864240841118627195225147963556844790953619387072449715202613526531282336699384964713072451395754541031476685575012283244577203893934978389763762420497867155077707739521019035485513416267596975055256444002561883189166871871374842193903448065694652971479008932048654131288063467951864210467111477764433677912084992399844834368930274909741859259373525190661957190283481155242401323088018498417661075073010547058873892089249560176964837795394641402933305939740181657689078783459429100613780422770471385284718103889345695986598082504668096266986929077658924425140996460108187141861683494003838945727117147269177323036833131313744659184521630225195120982922969339144879692356594932725614736589889818750116477983762340809374060249792704865178365402079888880379473559956217270709353444368702348946223411253167824643566666490479300262821219555209151629146226341897681306299315557135933660059194598636824979554035810435833691247034050187543698659274714105067716878390994055525911851388572832575206421031636561483470769624984265007992879592618753241425010971675260138923744014321442702131254895735350877262068863015852818562072903109325703380393268627045938861568523531594779565116782872941853507827692720592167776316248168360469272418790679734393061408568553053357964494912475596762492078443114385185284527989943361623082368246857944170780843100822924739236019216556418171458774574394594633478214702903329384711607503974018984189451827491175784099728025064036647353016639756941504503226728501601179289990929589262161387821548294805608962193685612504023238007684667903393411980418344181922511264870372693285776899404437888913701142579742003198140322172336858450490003661794401764492173574725811311191379056608299755405937922636507829236316349719727921588119967351708164326995747764394027208469570532677042524274031669609284746672476370030621873726015332492127182350167881689144466599768948591555313416704885995250573382346240736835820431855451475094558791080750539050249068880034991355204503839354885083747123823723245502642373253630477229923198626520959522693214038997716016310250718896576718419862981480422427348373285123766350393001878454808325770790574989777543852516122485871353792096758392688585067036156831618991942060649920659546112119519746245116332965819387467203815397398029535214073760743378834661045186738820845323059583629865978902642870686398198449726167304529442128862420212610611151896618

/-- Checkpoint: after the first 250 steps of the first twist. -/
def mtCkT1 : Nat := 576530615885411601245301592000665333995298971017035641151605743016014334390650357488162233615613294480555991590699430476495171072426114313754971974907122608682506805825645685212013539160435067384252499936084402767867918598201238710655243095901560006202250696161753671504002112942893302852654704316082246928744477343509059895338253102415589992057604721980525492895235696084227080387663265009553307542345390327279676811451023833039642822734639964143263747926140075292317849149026937235167824813083534485045872854420312077309261199897317801034297595956824327845257587766424881288040833618951604830463528855869001151680156107922877149238558221011630989560841929541854241712001991022762936785363997391915822090332985557480211216674160250015202883733458406524908329036638929702735084197423288972025337476268141826851413799841232297255920517739888578376882611916118372671888366476747290151457462026314683470054588642315790413163736484543351859775203916002114474162800537206645405518601810316749074949333578090844588203126659609298516433249492992629888003282476073676981875730151689402516080776808364459851846498640479442849387056034090610928754206039233078643938276139263965744111752134625786991488662909952376821456751292053964024999417019856270760980261405620319177191873948693620890870052752156252998051666553615821281664364669997925700235478436079979984333918991246971954258095869173048058234857599241416042376233471504600166522995501129680413767190782405824437152132043448138580964774433144699321440165335427127209717876907803827745323706386024551518531532417674071738625276513880615056749641745155383328206239052382868050030922288875137978955405655433508720719321653328684792107812743380481418392596218371917343819325269019518354835748397733338013129260687207177613392826042874394007359750610712519235007903759930685281018907329762068058792520029493116773238939716993790495011749111185393380500044026963359718309069644288715393930978335965268466170730885859974888180628595358370827339639823491041746583009682675355648804933723638577761480056317817597308220742269167426729595665732030506356460883927938697317510016392211302666254828689244375938108745263786691814635707011096663667077745888598210413360812888798365857248289428238709709617049337295154831718161124148115350121187853089118581950844054128009285439896965132893557434066426143552091078035395569746518313284303574136780256546453528718040719664452518445663927454987913833822061947348244659034788076593508691171709923225688133045270829160082099889126937609640862937637915508140791743875956528569809133908327340939669524864131745337286937500639354896642097082407829129341261009545051058983154571153143911518880377729987656019209591634659688616263228504052223514885823495028162495626980696404254891007155226372356430400496436157876884176534684557681014992964032139485733782760420159769142338696408877985805929676972891306926380320480004214641757919869289477596062845756705950031601188160608734991829696112694591825987042582950147160452585287086366174568482377041337089764810331549414590942258931890956566577178819723769280488458085825034655198390614948926755792251809293136019040081876291972424907172822817984364161517519075418927244049724827041492646698453993698076615705139915395054664346096616556160406377813543234659063888596846382750095824799694623742061750291684920115971784782078560989403596370524614347276164241605123667835879083535158872870164968261089553575251494653192440479520335412801547872445680928005403846256484933052779175403357054941875051953819176618666973714519554628620392047064960854204447761602940409717691530809952108883722091931176002755908075427975869586302857673604814158807055554598244616276421776811186801176622165914839279771493487526041686480145099314941897736661992286836293394730861567564074775443347027579493614499170966280371039856606713141467559426327683777807499000926399095628588972769636101783458423888562432720739179934572621120645341600070780671856519601500961148833740628127348585221832373631638119056692992651075768636781020429663621459100422453962140686158533544088645833400041368729124526051625253371545273705419511429323641782349199261788626206586884157584329434225893501413713152081788166081820632344267446297053888552027554156490116400912689702882089287322630411525127089470090097341685954868652627174663899974064286471139448291054920902452076433364736104906722735294310271326025438499762945380594370014451359834266447171129668248257540870217667834093207453502718252062813229348812986066905951114987862261681386490702752324235696258799452626292281492628032399074956125633840722620960715335543206627373393346345632721668626194552571543454005958373709384286248199648638779392462365508229555579735855364985148030383674932368050234364711240905926223739162708640332959713211590776993983360825949655566905293007293567833618661189723068922050330844049339303026258876029106445367242917204270535915584588270967495305053315906738481031815118704197308055160817044147366874338004210559000081892255140727750961978410645240194015262457860046501702405284486917822965741963714211739271842352185582358954038614726489205463318053196781087064711039186696449871033039424294299303225878740437525087375615140659490130492544681779534868177705442344147132792033400739229684143531236165100707005806197478090476836258400905167510808284712014328705931717925831162187635964811067242728226824513289902859851958551250301439578401700927050267823379859141574357881027781633509409003844700253430642464894851039727570274605756643585698787385271155039539965188330582730864265216913072139554246410773115547837509072268938554583032653262054209281446457676757743831819925850285380983866519033087364404215533877292943846578646937172258699795009272791510530341556439470024935772755605088470533917762825235425774845431636001311941901299349464550387994351707558188140266250011412138293592336259523053907865770076989577463473608582951432663539686213257593746643513220938142061919645534654132554699622444921156517714499732600279755856122851967518566723

/-- Checkpoint: after 500 steps of the first twist. -/
def mtCkT2 : Nat := 576530615885411601245301592000665333995298971017035641151605743016014334390650357488162233615613294480555991590699430476495171072426114313754971974907122608682506805825645685212013539160435067384252499936084402767867918598201238710655243095901560006202250696161753671504002112942893302852654704316082246928744477343509059895338253102415589992057604721980525492895235696084227080387663265009553307542345390327279676811451023833039642822734639964143263747926140075292317849149026937235167824813083534485045872854420312077309261199897317801034297595956824327845257587766424881288040833618951604830463528855869001151680156107922877149238558221011630989560841929541854241712001991022762936785363997391915822090332985557480211216674160250015202883733458406524908329036638929702735084197423288972025337476268141826851413799841232297255920517739888578376882611916118372671888366476747290151457462026314683470054588642315790413163736484543351859775203916002114474162800537206645405518601810316749074949333578090844588203126659609298516433249492992629888003282476073676981875730151689402516080776808364459851846498640479442849387056034090610928754206039233078643938276139263965744111752134625786991488645889861893121651977760546927024605062117534986470768496870118122036307011077954554687433507194448512305038877848017222112664995357385246736254839567367298102154655379640098600585969029338257719118028267657097875631575947143330337375498966814947772369509540965536176079632696606168685503777476789230762789158909596914359613902216215289185158496759497552288101716176046038807736648344516114883973864346352589630050958945567955313032910725223918746652520472234632131156062415449006169982892819740367376871302552023057711113690972361341510862461511067855890724899024572248748850572095485410079731622222730783342831693457645854828456818413835048202454901323660028948671847155399081448354048681191412677057312825439309701604391010300075687849256634617513525211903710549091752621086622184262549502336193602733374666877756438705534180178681063206279223888555056591712678744354915307996373733986632975040523375707034732378170745187819144754175418969416548664156714577576274726124959765188133541379353581003883669511220807072453115239184900065629029926752319864095666391399324306576356414919543426818637762471950226823134632359490119733533443032552696552349384116191567444896442540038910960892724541582119077011848487510554939015398142224265439784238068394225201261273004362623296055018827409732615271246293442246476098369382056472776975037882189144150385391214784812369573972100392891415481052973466626224804090873425209799026625769370812827471377712297119981528328170127588698412475993883320345708049552192949667107080968175611042674466756543256307626296263856521827955181608404602745709947969688888404062099836290190373877872159558116181501806832778464387961306634007764800167359470200206324273830075438005047876289707600088031692353472133421235234032966180324464726688350130572189748472484648710581925965995212932811374889139384880549915759275501715374915159520272352749482205274197390498230934961545160762939763822519845590389955413854438118666789049042492749758183147764774613312443821002257714227651193360323189989983432679862687285820659115973364019992236554085755171691020094804515509299896079776684892913591088364538555935079020444299233166029673728580378851726609904223741901199313286194814939677375700807842650839968025792553278096489679662484050662268690884784017332222615453377110371372055519973728857331682737765590787671134546733586536739020111825264565914270723525456013365944266044849847252842892505654248860755115143150692740362157665985692057451468935975855551089718005496589463820782467888266394944931729596925131246311729146133031426504695955220020673503978046787137583087917954340948791036674720679949537315800757828220714700731354948200108281966715136865851931436356807076194287022597143175977443903151515558620232585226733860631497662059268153655752773733741340712406974448085433283083625415328771579141516658524925716924474672934106837272026268237117823432361960304660210780443201557046801267834131320150010558341462135772752562825737414629895331986817125195856960443017223875522807069003882750947724728389312693548170384476129687214208867117467951895755367049251346663552241491040407081222501714832938254140281562313813420106855763301488321816990014932208928019321539731794082902468030498447849662223374505495653630536992132356038158086619985945253331268980542351888148202130802415940592178733164014907568751081098702380696601132223447706894863817396625420303953771244025157136763377293837896013936774972130859963374454992803322447706057508239087565570754511211309546172573124078336273959213706099193196545396465211168392468843512203481978842559376507563540725747664428054567401600834826821709654651971448926113872443119101978435583157442677835737998689606194195976494925805147012442565656232248476326879710558185372793711695747287357160246201477872746080435854230282777778309849271987327606215817334003846430251398435589454628851229768719043609958572767455356608489348348724493641604578727549058170982838437119243082759269127751383506585302758925693762530664795168425934052923144819751809631175478202990515862328307849207856436731840901496555133119783445520182713181460116486701475637202708587432258444919809311823117123686384250879812472326773113120473051274804243287418930548140374600909563576439165380875044622470974760737727212441789555324160875943889563997723364283046736564650477815458361345805937831569774908762929233900752844799171449884095189482675147397893930931382405761291897394938360055749353058187902408266785880468455553808694897216063138015607020771769132820435255217417867342377665402986857360274785338986219860674427089595171808313709045459599995898638022366750610026368860657897912141967039993300154474208639878151616318419239003356549675855681334120161807128897451005736596536249130844458022363347122657334889796779295585625500936593112281268772292721254307231130009927065987395

/-- The state after the first full twist of the seed-42 generator. -/
def mtCkT3 : Nat := 88210577066905824722412853722496305771247353883827453546773584536697424533770738315658374241155970794079945574700805751543291235639101646448891365852483940677376751218100605001941351796271473349678518388329372823262059519212641323322033731900658683873217697466266552651110032789915644959018230838095452037387271891910182329538493717860322525456134406007717674031468634602196254026212510462832037682098822603916429178165745104476944103394194675148892848262015821911836285936510532452238484269317298821447979489067891108251695296220830733534154489657868322773479909639097194161839386511904989952995198000212007232484647142847161021110586720077333685476655616928630811340563055174067177020010113971076226188597629434001298306129386335604141651299179654919536357148405560932886916294653451831940075659354231011550947668191231504506143735852468909559724540264552618919660346940240149637808638969212385395257125322965230412692578247695144061884587592339366319535888874538693137248150996100312824467348825732574845684053566378842732126943504233753238038289896657414787445124079626219279644021514357995842464176782267940717135759763565554456833741525972979087686602754284454849632499012449334010685327007309504727552401577150293200259099518867444043189645945925846788254248927486904522251048892172020050667368824756905796136234315504160515920735347029495731149872038562772752115816832919254797604470294671491057080291889578712361986090811609322329753109153714674696512521490689540754562341203842177429181417894661627438078444532086161106816380677745179519292386484897804877851034393107164678483616196785520754151321320859384697067246413773766416166316225961413754102881475143522369817760671888112628217257048069754580083991737587773021138866279141220744056854905966855752850580509239981397764316648479424480930422647138790585928093655111018765086581222491988341243047726771604639085002608714352291514274953220720261229217257604771630063527714680090721597889024536617204339377009383817584634572799506184566207077881940276571444411078613804735853921087555477233498450407851925012700942132692842446994460504253177153571318595389962664218223337346962258601665184707687340714931253309032507051579471677930759338036956369624736130106937739782789564079705261060931519115753956081274749715166201553916477143396526922591825305910414013340770995595490957383933064503260776207037607024669895906418707455935422716696030221787035752848538617202609203007439812719943778162863844288310203397418103219765493262695938571586328570503203455738678487482636609397210386405358387331438374490113958438177572281763461391222047762203965500730016172990856460947141681350291315342522145592333530872919319925184069071557920690093951188850044134494935761965919428662579764042085609186371054249151160019794297049642972839199434471439219273991518387754706919290060025268864692565171490837697288444209569627480558108200374803033810880350719045984408376407920702658222086298506825999713635267416825358780688291162536498181791368114441767498647120193102024047097689587516721573669213952897294649922925452054248031155517783077319312606094142662227152295336315017797488591654087790514900057348359816337332786491915062249854234241923420583932256896159683775544265656483111444936046672441051837379384519382240413155561432193957321378546413490856936430846370483738243476438685827322247618167874435415437459377020237278389390002096755428832753588166552589217510757091762720585485296204155730967227269982664356805961393922608866451103072189222663677915330420949377048483825301298160999831311302266327350526336069403704392850609681586439578449980889129030706026064493961525945805505150747774734968928517611548665587905401959808497576604846058825505505165814545815817722848720248386968438259026247742496219443178993048226758197468072700752023455884056005344014119264577721536268612674584389281876629199580663952098218750671549156854980283014449931931753612048571714371093161986453757045692330697628006584069279532065734503738922521511716896467138022256224918842636580889727461710626046944496774982276455718046755055165013060719040125509665985283983060451173331288577294517876980372005261883158376031623889015531276267700635196565058882230779111259708408980363432072272556349347438885987766755878563344478778175695613757730565504748469657266151001886606647559265688743926103743519316486867386603044139137570396721807724402622067964098369942210451177826383821788577324378027687088658650485112844849600116100228035755477312047287613175465854073080205631876364320954271938152438248002156302299148885227299430536272615122448337535141967086244587736898539840149953971972900721197164739265510735501366950686251952603976745637196065269393715426518233276992754601799756794496576864280729730565052492144757218865268192856650053467894444137409530299153984932140802917401660883289407284829956094655696381197761402522563707908213751946853061480922203735584128214147337505631615524191383990631822384915264278496074383445805118225618134774387547676190838437471948377276163596752469542921945986019209812244955315845967272614388409528561710939043126430156331413201333432519349075335611803733131688440031351236340609915255327937556208808639759267020543427031246065123783895436334443118925087667798509395124514660034055577311888331777887588237774010276230000188518079572917652795743482422451015853779488913686618507179826091151701809678565912114274036202190075534712333734365896518323698987577483755533995444243571059934700171043213692551532466545033747642908476581616310318782813061166618530035573621205020188572589320786548381730370557218291878079554251203528483721822547040660220915985984667166994205097736563522695825915369685492021988672647733983797576340647807302814068500011120569357590832951199758150835541031114209940966707770515324605924872778190085890982074450977234547553762530084313376750590727797735246482837267991090906918465651926584108497919558189098064459288569046254430142529018885566502803699885369800820375706612715865621626367394202577781067054499307043875139

/-! Kernel evaluation of the seed-42 state, in chunks of at most 250 loop
steps (a single 1247-step evaluation overflows the type-checker's stack). -/

set_option maxRecDepth 40000 in
theorem mtInit_chunk1 : foldIdx mtInitF 0 250 (mtSet 0 0 (w32 42)) = mtCkI1 := by decide

set_option maxRecDepth 40000 in
theorem mtInit_chunk2 : foldIdx mtInitF 250 250 mtCkI1 = mtCkI2 := by decide

set_option maxRecDepth 40000 in
theorem mtInit_chunk3 : foldIdx mtInitF 500 123 mtCkI2 = mtCkI3 := by decide

/-- The `init_genrand(42)` state, evaluated. -/
theorem mtInitGenrand_42 : mtInitGenrand 42 = mtCkI3 := by
  rw [mtInitGenrand, show (623 : Nat) = 250 + (250 + 123) from rfl, foldIdx_add,
    foldIdx_add, mtInit_chunk1, mtInit_chunk2]
  exact mtInit_chunk3

set_option maxRecDepth 40000 in
theorem mtTwist_chunk1 : foldIdx mtTwistF 0 250 mtCkI3 = mtCkT1 := by decide

set_option maxRecDepth 40000 in
theorem mtTwist_chunk2 : foldIdx mtTwistF 250 250 mtCkT1 = mtCkT2 := by decide

set_option maxRecDepth 40000 in
theorem mtTwist_chunk3 : foldIdx mtTwistF 500 124 mtCkT2 = mtCkT3 := by decide

/-- The state of `RandomState(42)` after its first twist, evaluated. -/
theorem mtState42_zero : mtState42 0 = mtCkT3 := by
  show mtTwist (mtInitGenrand 42) = mtCkT3
  rw [mtInitGenrand_42, mtTwist, show (624 : Nat) = 250 + (250 + 124) from rfl,
    foldIdx_add, foldIdx_add, mtTwist_chunk1, mtTwist_chunk2]
  exact mtTwist_chunk3

/-- The first byte drawn from `np.random.RandomState(42).randint(0, 256,
dtype=np.uint8)` is 102; in particular it is not 0. -/
theorem rng42u8_zero : rng42u8 0 = 102 := by
  unfold rng42u8 mtOut42
  norm_num
  rw [mtState42_zero]
  decide

end Np

/-! ## `shamir_secret_sharing.py`: the `ShamirSecretSharing` class

The byte-wise Shamir scheme over the prime field of size 257
(`shamir_secret_sharing.py` lines 12-113).  The random coefficients that
`split_secret` draws from Python's global `random.randint(0, prime - 1)` are
modelled by an explicit tape `tape : Nat → Nat → Nat` (byte index, draw
index); every theorem quantifies over the tape. -/

/-- Equality of `Except` results is decidable (needed to evaluate the
embedded fallible functions on concrete inputs). -/
instance {e a : Type} [DecidableEq e] [DecidableEq a] : DecidableEq (Except e a) := fun x y =>
  match x, y with
  | .ok u, .ok v => if h : u = v then .isTrue (by rw [h]) else .isFalse (by simp [h])
  | .error u, .error v => if h : u = v then .isTrue (by rw [h]) else .isFalse (by simp [h])
  | .ok _, .error _ => .isFalse (by simp)
  | .error _, .ok _ => .isFalse (by simp)

namespace ShamirSSS

/-- `self.prime = 257`. -/
def prime : Nat := 257

/-- `extended_gcd(a, b)` from `_mod_inverse`, with a structural fuel bound
(`extended_gcd_eq` below recovers the source's recurrence). -/
def egcdAux : Nat → Nat → Nat → Nat × Int × Int
  | 0, _, b => (b, 0, 1)
  | fuel + 1, a, b =>
    if a = 0 then (b, 0, 1)
    else
      let r := egcdAux fuel (b % a) a
      (r.1, r.2.2 - ((b / a : Nat) : Int) * r.2.1, r.2.1)

/-- `extended_gcd(a, b)`. -/
def extended_gcd (a b : Nat) : Nat × Int × Int := egcdAux a a b

theorem egcdAux_congr (fuel₁ : Nat) : ∀ fuel₂ a b, a ≤ fuel₁ → a ≤ fuel₂ →
    egcdAux fuel₁ a b = egcdAux fuel₂ a b := by
  induction fuel₁ using Nat.strong_induction_on with
  | _ fuel₁ ih =>
    intro fuel₂ a b h1 h2
    match fuel₁, h1 with
    | 0, h1 =>
      interval_cases a
      match fuel₂ with
      | 0 => rfl
      | f + 1 => simp [egcdAux]
    | f + 1, h1 =>
      match fuel₂, h2 with
      | 0, h2 =>
        interval_cases a
        simp [egcdAux]
      | g + 1, h2 =>
        by_cases ha : a = 0
        · simp [egcdAux, ha]
        · have hlt : b % a < a := Nat.mod_lt _ (Nat.pos_of_ne_zero ha)
          simp only [egcdAux, if_neg ha]
          rw [ih f (by omega) g (b % a) a (by omega) (by omega)]

/-- The source's recurrence for `extended_gcd`. -/
theorem extended_gcd_eq (a b : Nat) :
    extended_gcd a b =
      if a = 0 then (b, 0, 1)
      else
        let r := extended_gcd (b % a) a
        (r.1, r.2.2 - ((b / a : Nat) : Int) * r.2.1, r.2.1) := by
  by_cases ha : a = 0
  · simp [extended_gcd, ha, egcdAux]
  · have hpos : 0 < a := Nat.pos_of_ne_zero ha
    obtain ⟨f, rfl⟩ : ∃ f, a = f + 1 := ⟨a - 1, by omega⟩
    simp only [extended_gcd, egcdAux, if_neg ha]
    rw [egcdAux_congr f (b % (f + 1)) (b % (f + 1)) (f + 1)
      (by have := Nat.mod_lt b (show 0 < f + 1 by omega); omega) le_rfl]

/-- `_mod_inverse(a, m)`: the modular inverse via the extended Euclidean
algorithm, or `none` where the source raises `ValueError`. -/
def mod_inverse (a m : Nat) : Option Nat :=
  let r := extended_gcd (a % m) m
  if r.1 ≠ 1 then none
  else some (((r.2.1 % (m : Int) + (m : Int)) % (m : Int)).toNat)

/-- `_polynomial_eval(coefficients, x)`: Horner evaluation mod 257. -/
def polynomial_eval (coefficients : List Nat) (x : Nat) : Nat :=
  coefficients.reverse.foldl (fun result coeff => (result * x + coeff) % prime) 0

/-- `_lagrange_interpolation(shares, x)`: byte reconstruction at `x` from the
first `threshold` of the supplied `(x_i, y_i)` pairs; `none` where the source
raises `ValueError`. -/
def lagrange_interpolation (threshold : Nat) (shares0 : List (Nat × Nat))
    (x : Int) : Option Nat :=
  if shares0.length < threshold then none
  else
    let shares := shares0.take threshold
    (shares.enum.foldlM (fun (result : Int) (ip : Nat × (Nat × Nat)) =>
      let nd := shares.enum.foldl (fun (nd : Int × Int) (jp : Nat × (Nat × Nat)) =>
        if ip.1 ≠ jp.1 then
          ((nd.1 * (x - (jp.2.1 : Int))) % (prime : Int),
           (nd.2 * ((ip.2.1 : Int) - (jp.2.1 : Int))) % (prime : Int))
        else nd) (1, 1)
      match mod_inverse nd.2.toNat prime with
      | none => none
      | some dinv =>
        some ((result + (ip.2.2 : Int) * ((nd.1 * (dinv : Int)) % (prime : Int)))
          % (prime : Int))) (0 : Int)).map
      (fun result => ((result % (prime : Int)).toNat % prime))

/-- `ShamirSecretSharing.split_secret(secret_bytes)`: share `i` (0-based)
holds, for each byte, the pair `(i+1, f_b(i+1) mod 257)` where `f_b` has the
secret byte as constant term and tape values as higher coefficients. -/
def split_secret (threshold num_shares : Nat) (tape : Nat → Nat → Nat)
    (secret_bytes : List Nat) : List (List (Nat × Nat)) :=
  (List.range num_shares).map (fun i =>
    secret_bytes.enum.map (fun bp =>
      let coefficients := bp.2 :: (List.range (threshold - 1)).map (tape bp.1)
      (i + 1, polynomial_eval coefficients (i + 1))))

/-- `ShamirSecretSharing.reconstruct_secret(shares_subset)`.  A byte value of
256 would make the source's `bytearray.append` raise, hence the range check;
a byte position carried by fewer than `threshold` shares is silently skipped,
as in the source. -/
def reconstruct_secret (threshold : Nat) (shares_subset : List (List (Nat × Nat))) :
    Except String (List Nat) :=
  if shares_subset.length < threshold then .error "Need at least threshold shares"
  else
    match shares_subset with
    | [] => .error "list index out of range"
    | first :: _ =>
      (List.range first.length).foldlM (fun acc byte_idx =>
        let byte_shares := shares_subset.filterMap (fun share => share[byte_idx]?)
        if byte_shares.length ≥ threshold then
          match lagrange_interpolation threshold byte_shares 0 with
          | some b =>
            if b < 256 then .ok (acc ++ [b]) else .error "byte must be in range"
          | none => .error "ValueError"
        else .ok acc) ([] : List Nat)

end ShamirSSS

/-! ## `shamir_secret_sharing.py`: `OptimizedShamirSecretSharing` and the
module-level functions

In the optimized class all arithmetic happens in NumPy `uint8`/`uint16`.
Every intermediate wrap (`uint8` multiplication, the `uint16` accumulator)
is congruent mod 256 to exact integer arithmetic, and the final result is
reduced mod 256, so share bytes are modelled as the exact sum reduced mod
256, and the reconstruction accumulator keeps the source's `uint16`
wrap (reduction mod 65536) explicit. -/

/-- A `data_fragment` after base64/pickle decoding: the small-payload path
pickles a list of `(x, y)` pairs, the chunked path a list of byte values.
The base64 and pickle transport encodings themselves are not modelled; a
fragment stands for the decoded object. -/
inductive Payload where
  | pairs (l : List (Nat × Nat))
  | bytes (l : List Nat)
deriving DecidableEq

/-- A formatted share dictionary as built by `shamirs_secret_sharing` /
`_chunked_secret_sharing` (the `share_size` entry, the length of the pickled
fragment, is not modelled). -/
structure FormattedShare where
  share_id : Nat
  data_fragment : Payload
  index : Nat
  total : Nat
  total_size : Nat
  threshold : Nat
  total_shares : Nat
  is_real_sss : Bool
deriving DecidableEq

namespace OptSSS

/-- One share byte of `OptimizedShamirSecretSharing.split_secret`:
`(s + Σ_p coeffs[p] · x^(p+1)) mod 256` (the `uint16` accumulator and the
`uint8` products wrap consistently with the final `% 256`). -/
def split_byte (threshold : Nat) (coeffs : Nat → Nat) (s x : Nat) : Nat :=
  ((List.range (threshold - 1)).foldl (fun acc p => acc + coeffs p * x ^ (p + 1)) s) % 256

/-- `OptimizedShamirSecretSharing.split_secret(secret_bytes)` with the
coefficient matrix given as a tape (byte index, power); share `i` is
evaluated at `x = (i+1) mod 256` (`x_values` is a `uint8` array). -/
def split_secret (threshold num_shares : Nat) (tape : Nat → Nat → Nat)
    (secret : List Nat) : List (List Nat) :=
  (List.range num_shares).map (fun i =>
    secret.enum.map (fun bp => split_byte threshold (tape bp.1) bp.2 ((i + 1) % 256)))

/-- The integer Lagrange coefficient `numerator // denominator` computed by
`OptimizedShamirSecretSharing.reconstruct_secret` for node `i` (nodes are
assumed to be `1, …, threshold`). -/
def lagrange_coeff (threshold i : Nat) : Int :=
  let nd := (List.range threshold).foldl (fun (nd : Int × Int) j =>
    if i ≠ j then
      (nd.1 * (0 - ((j : Int) + 1)), nd.2 * (((i : Int) + 1) - ((j : Int) + 1)))
    else nd) (1, 1)
  Int.fdiv nd.1 nd.2

/-- `OptimizedShamirSecretSharing.reconstruct_secret(shares_subset)`: the
first `threshold` share byte strings are combined with the integer Lagrange
coefficients for nodes `1, …, threshold` in a `uint16` accumulator, then
reduced mod 256.  Shares of unequal length make NumPy's broadcasting raise,
hence the shape guard. -/
def reconstruct_secret (threshold : Nat) (shares_subset : List (List Nat)) :
    Except String (List Nat) :=
  if shares_subset.length < threshold then .error "Need at least threshold shares"
  else
    match shares_subset.take threshold with
    | [] => .error "list index out of range"
    | first :: rest =>
      if (first :: rest).all (fun a => a.length = first.length) then
        .ok ((List.range first.length).map (fun b =>
          (((((first :: rest).enum.foldl
            (fun (acc : Int) (ip : Nat × List Nat) =>
              acc + ((ip.2.getD b 0 : Nat) : Int) * lagrange_coeff threshold ip.1)
            0) % 65536) % 256)).toNat))
      else .error "operands could not be broadcast together"

/-- An `OptimizedShamirSecretSharing` instance: the constructor arguments
plus the current position in the seed-42 random stream (the object's only
mutable state). -/
structure Instance where
  threshold : Nat
  num_shares : Nat
  rngPos : Nat
deriving DecidableEq

/-- `OptimizedShamirSecretSharing(threshold, num_shares)`: the constructor
validates `threshold ≤ num_shares` and seeds `RandomState(42)`; it takes no
entropy input, so the stream position of a fresh instance is always 0. -/
def init (threshold num_shares : Nat) : Except String Instance :=
  if threshold > num_shares then
    .error "Threshold cannot be greater than number of shares"
  else .ok ⟨threshold, num_shares, 0⟩

/-- The coefficient matrix drawn by one `split_secret` call: entry
`(bi, p)` is byte `rngPos + bi*(threshold-1) + p` of the seed-42 stream
(NumPy fills the `(len, threshold-1)` array in row-major order). -/
def Instance.tape (inst : Instance) (bi p : Nat) : Nat :=
  Np.rng42u8 (inst.rngPos + bi * (inst.threshold - 1) + p)

/-- A `split_secret` call on an instance: returns the shares and the
instance with its random stream advanced. -/
def Instance.split (inst : Instance) (secret : List Nat) :
    List (List Nat) × Instance :=
  (split_secret inst.threshold inst.num_shares inst.tape secret,
   { inst with rngPos := inst.rngPos + secret.length * (inst.threshold - 1) })

end OptSSS

namespace ShamirModule

/-- `_chunked_secret_sharing(data_bytes, num_shares, threshold, chunk_size)`:
one `OptimizedShamirSecretSharing` instance is created and used for every
chunk in order (its random stream advances across chunks), and share `i`
accumulates the concatenation of its per-chunk share bytes.  `none` models
the `ZeroDivisionError` for a zero chunk size and the constructor's
`ValueError`. -/
def chunked_secret_sharing (data_bytes : List Nat)
    (num_shares threshold chunk_size : Nat) : Option (List FormattedShare) :=
  if chunk_size = 0 then none
  else
    let num_chunks := (data_bytes.length + chunk_size - 1) / chunk_size
    match OptSSS.init threshold num_shares with
    | .error _ => none
    | .ok sss0 =>
      let result := (List.range num_chunks).foldl
        (fun (st : OptSSS.Instance × List (List Nat)) chunk_idx =>
          let chunk_data := (data_bytes.drop (chunk_idx * chunk_size)).take chunk_size
          let out := st.1.split chunk_data
          (out.2, List.zipWith (· ++ ·) st.2 out.1))
        (sss0, List.replicate num_shares [])
      some (result.2.enum.map (fun (ip : Nat × List Nat) =>
        { share_id := ip.1 + 1, data_fragment := .bytes ip.2, index := ip.1,
          total := num_shares, total_size := data_bytes.length,
          threshold := threshold, total_shares := num_shares,
          is_real_sss := true }))

/-- `shamirs_secret_sharing(data, num_shares, threshold)`: `data_bytes` is
the serialized payload (`pickle.dumps(data)`); payloads over 65536 bytes go
through the chunked `OptimizedShamirSecretSharing` path, smaller ones
through byte-wise `ShamirSecretSharing` with coefficient tape `tape`. -/
def shamirs_secret_sharing (tape : Nat → Nat → Nat) (data_bytes : List Nat)
    (num_shares threshold : Nat) : Option (List FormattedShare) :=
  if data_bytes.length > 65536 then
    chunked_secret_sharing data_bytes num_shares threshold 65536
  else
    some ((ShamirSSS.split_secret threshold num_shares tape data_bytes).enum.map
      (fun (ip : Nat × List (Nat × Nat)) =>
        { share_id := ip.1 + 1, data_fragment := .pairs ip.2, index := ip.1,
          total := num_shares, total_size := data_bytes.length,
          threshold := threshold, total_shares := num_shares,
          is_real_sss := true }))

/-- One facility's reconstruction inside `reconstruct_secret_shares`:
`none` models every raised-and-caught error (insufficient shares, the tuple
unpacking failure on a chunked fragment, a failed deserialization of the
reconstructed bytes).  A successful run returns the reconstructed byte
string (its `pickle.loads` deserialization is not modelled further). -/
def reconstruct_facility (shares : List FormattedShare) : Option (List Nat) :=
  match shares with
  | [] => none
  | s₀ :: _ =>
    let threshold := s₀.threshold
    if shares.length < threshold then none
    else
      match shares.mapM (fun s => match s.data_fragment with
        | .pairs l => some l
        | .bytes _ => none) with
      | none => none
      | some raw_shares =>
        match ShamirSSS.reconstruct_secret threshold raw_shares with
        | .ok bs => some bs
        | .error _ => none

/-- `reconstruct_secret_shares(shares_by_facility)` (the version in
`shamir_secret_sharing.py`): facilities whose reconstruction raises are
skipped. -/
def reconstruct_secret_shares (shares_by_facility : List (Nat × List FormattedShare)) :
    List (Nat × List Nat) :=
  shares_by_facility.foldl (fun acc fp =>
    match reconstruct_facility fp.2 with
    | some bs => acc ++ [(fp.1, bs)]
    | none => acc) []

end ShamirModule

/-! ## `config.py`: the hierarchical configuration -/

/-- The `HierConfig` parameters the pipeline roles read (`config.py`
lines 47-106). -/
structure HierConfig where
  number_of_facilities : Nat
  num_fog_nodes : Nat
  committee_size : Nat
  consensus_threshold : Nat
  secret_num_shares : Option Nat
  secret_threshold : Nat
deriving DecidableEq

/-- `HierConfig.secret_num_shares_computed`: defaults to the fog-node
count. -/
def HierConfig.secret_num_shares_computed (c : HierConfig) : Nat :=
  c.secret_num_shares.getD c.num_fog_nodes

/-- The repository's configuration values: F=4 facilities, G=3 fog nodes,
V=3 validators with quorum Q=2, (k,n) = (2,3) secret sharing. -/
def hierConfig : HierConfig :=
  { number_of_facilities := 4
    num_fog_nodes := 3
    committee_size := 3
    consensus_threshold := 2
    secret_num_shares := none
    secret_threshold := 2 }

/-! ## Association lists for Python dicts

Python dicts preserve insertion order; they are modelled as association
lists where updating an existing key rewrites it in place and a new key is
appended at the end. -/

/-- `d.get(key)` on an association list. -/
def assocFind {κ α : Type} [DecidableEq κ] : List (κ × α) → κ → Option α
  | [], _ => none
  | p :: m, key => if p.1 = key then some p.2 else assocFind m key

/-- `d[key] = v`: overwrite in place, or append a new entry at the end. -/
def assocSet {κ α : Type} [DecidableEq κ] : List (κ × α) → κ → α → List (κ × α)
  | [], key, v => [(key, v)]
  | p :: m, key, v => if p.1 = key then (key, v) :: m else p :: assocSet m key v

/-- Append `v` to the list at `key`, creating the entry at the end if
absent. -/
def assocAppend {κ α : Type} [DecidableEq κ] : List (κ × List α) → κ → α → List (κ × List α)
  | [], key, v => [(key, [v])]
  | p :: m, key, v =>
    if p.1 = key then (p.1, p.2 ++ [v]) :: m else p :: assocAppend m key v

/-! ## `hierfognode.py`: the fog node -/

namespace Fog

/-- The share dictionary a fog node reads: `share_id` and the transported
`data_fragment`, modelled as the base64-decoded (still pickled) byte
string, which the fog node never interprets further. -/
structure FogShare where
  share_id : Nat
  data_fragment : List Nat
deriving DecidableEq

/-- A `committee_signed_share` message as posted by a validator to
`/receive_share` (fields the fog node does not read are omitted).  Note it
carries no round identifier. -/
structure FogShareMsg where
  facility_id : Nat
  share : FogShare
  committee_signature : String
deriving DecidableEq

/-- `verify_committee_signature`: only a format check of the signature
string — 64 alphanumeric characters (`hierfognode.py` line 37); the signed
data is ignored. -/
def verify_committee_signature (signature : String) : Bool :=
  signature.length == 64 && signature.toList.all Char.isAlphanum

/-- Python's stable `facility_shares.sort(key=lambda x: x['share'].get('share_id', 0))`,
modelled by stable insertion sort. -/
def sortByShareId (l : List FogShareMsg) : List FogShareMsg :=
  l.insertionSort (fun a b => a.share.share_id ≤ b.share.share_id)

/-- The byte string `reconstruct_secret_shares` (in `hierfognode.py`,
lines 39-80) recovers for one facility: the fragments are sorted by
`share_id` and *concatenated* (no interpolation of any kind). -/
def reconstruct_bytes (facility_shares : List FogShareMsg) : List Nat :=
  ((sortByShareId facility_shares).map (fun m => m.share.data_fragment)).flatten

/-- Modelled from the spec (§4.3 step 1): "for each facility_id, order its
shares by share_id, run byte-wise Lagrange interpolation at x=0 to recover
the compressed byte string".  Byte `b` is the Lagrange interpolation at
`x = 0`, over the prime field of §4.1, of the points
`(share_id, fragment[b])`; the recovered string has the length of the first
sorted fragment. -/
def reconstruct_bytes_spec (facility_shares : List FogShareMsg) : List Nat :=
  let sorted := sortByShareId facility_shares
  match sorted with
  | [] => []
  | s₀ :: _ =>
    (List.range s₀.share.data_fragment.length).filterMap (fun b =>
      ShamirSSS.lagrange_interpolation sorted.length
        (sorted.map (fun m => (m.share.share_id, m.share.data_fragment.getD b 0))) 0)

/-- `reconstruct_secret_shares(shares_by_facility)` (fog-node version):
facilities whose concatenated data is empty are dropped (`if
reconstructed_data:`); the final `pickle.loads` of the concatenation is not
modelled further. -/
def reconstruct_secret_shares (shares_by_facility : List (Nat × List FogShareMsg)) :
    List (Nat × List Nat) :=
  shares_by_facility.foldl (fun acc fp =>
    let data := reconstruct_bytes fp.2
    if data.length ≠ 0 then acc ++ [(fp.1, data)] else acc) []

/-- The fog node's mutable module state. -/
structure FogState where
  training_round : Nat
  received_shares : List FogShareMsg
  shares_by_facility : List (Nat × List FogShareMsg)
deriving DecidableEq

/-- Responses of the `/receive_share` handler.  `staleRound` is the reply
required by the spec's §5 cancellation rule; the source never produces
it. -/
inductive FogResp where
  | share_received (fog_node_id : Nat)
  | invalid_committee_signature
  | staleRound
deriving DecidableEq

/-- The readiness check of `receive_share`: every facility id below
`number_of_facilities` must be a key holding at least
`secret_num_shares_computed` buffered share messages (duplicates are not
filtered: the raw list length is compared). -/
def all_facilities_ready (cfg : HierConfig)
    (sbf : List (Nat × List FogShareMsg)) : Bool :=
  (List.range cfg.number_of_facilities).all (fun fid =>
    match assocFind sbf fid with
    | none => false
    | some l => decide (l.length ≥ cfg.secret_num_shares_computed))

/-- The `/receive_share` handler: verify the committee signature format,
buffer the share (globally and per facility), and launch aggregation when
every facility is ready.  Returns (new state, HTTP response, whether the
aggregation thread was started).  No round check of any kind is
performed. -/
def receive_share (cfg : HierConfig) (fogIndex : Nat) (st : FogState)
    (msg : FogShareMsg) : FogState × FogResp × Bool :=
  if ¬ verify_committee_signature msg.committee_signature then
    (st, .invalid_committee_signature, false)
  else
    let st' : FogState :=
      { st with
        received_shares := st.received_shares ++ [msg]
        shares_by_facility := assocAppend st.shares_by_facility msg.facility_id msg }
    (st', .share_received fogIndex, all_facilities_ready cfg st'.shares_by_facility)

end Fog

/-! ## `hiervalidator.py`: the validator committee member -/

namespace Validator

/-- The share dictionary as seen by a validator: the `data_fragment` here is
the base64 text transported in the JSON body (the validator only checks its
length), and `size_info` (checked for presence only) is omitted. -/
structure VShare where
  share_id : Nat
  data_fragment : String
  threshold : Nat
  total_shares : Nat
deriving DecidableEq

/-- A `/validate_share` request from a facility.  The `round` field is sent
by the client; the validator never reads it. -/
structure ShareRequest where
  facility_id : Nat
  share : VShare
  share_uid : String
  signature : String
  public_key : String
  round : Nat
deriving DecidableEq

/-- A `/receive_vote` gossip message. -/
structure VoteMsg where
  share_id : String
  validator_id : Nat
  vote : Nat
  share_data : Option ShareRequest
deriving DecidableEq

/-- A forward of an admitted share to a fog node
(`broadcast_to_fog_nodes`); the committee signature added there is a
64-character SHA-256 hex digest, which the fog node's format check
accepts. -/
structure FwdMsg where
  facility_id : Nat
  share : VShare
  fog_node_index : Nat
  validator_id : Nat
deriving DecidableEq

/-- A hexadecimal digit (`int(signature, 16)` accepts these; Python's `int`
is slightly more lenient — whitespace, sign, `0x`, underscores — which the
repository never exercises). -/
def isHexChar (c : Char) : Bool :=
  c.isDigit || ('a' ≤ c && c ≤ 'f') || ('A' ≤ c && c ≤ 'F')

/-- `int(signature, 16)` succeeds. -/
def isValidHex (s : String) : Bool :=
  s.length != 0 && s.toList.all isHexChar

/-- `base64.b64decode(signature)` succeeds: with `validate=False` Python
drops characters outside the alphabet and requires the remainder to have
length divisible by 4. -/
def isBase64ish (s : String) : Bool :=
  ((s.toList.filter (fun c => c.isAlphanum || c = '+' || c = '/' || c = '=')).length) % 4 == 0

/-- `verify_facility_signature(share_data, signature, facility_public_key)`:
a pure *format* check on the signature string — any nonempty hex or
base64-decodable string passes.  The share payload and the public key are
ignored by the source. -/
def verify_facility_signature (signature : String) : Bool :=
  if signature.length == 0 then false
  else isValidHex signature || isBase64ish signature

/-- `validate_share_integrity(share_data)`: parameter consistency with the
configuration (the required-fields and fragment-type checks hold by
construction in this model). -/
def validate_share_integrity (cfg : HierConfig) (share : VShare) : Bool :=
  share.total_shares == cfg.num_fog_nodes && share.threshold == cfg.secret_threshold

/-- The verdict computed by `cast_vote`: approve (1) iff the signature
format check, the integrity check, and the size bounds on the fragment all
pass. -/
def cast_vote_value (cfg : HierConfig) (share : VShare) (signature : String) : Nat :=
  if ¬ verify_facility_signature signature then 0
  else if ¬ validate_share_integrity cfg share then 0
  else if share.data_fragment.length == 0 then 0
  else if share.data_fragment.length > 10 * 1024 * 1024 then 0
  else 1

/-- The validator's mutable module state: the vote ledger
(`share_uid → validator_id → vote`) and the list of forwarded shares. -/
structure ValState where
  vote_records : List (String × List (Nat × Nat))
  validated_shares : List String
deriving DecidableEq

/-- `vote_records[share_id][validator_id] = vote` (with `defaultdict`
creating the outer entry). -/
def recordVote (st : ValState) (uid : String) (vid vote : Nat) : ValState :=
  let inner := (assocFind st.vote_records uid).getD []
  { st with vote_records := assocSet st.vote_records uid (assocSet inner vid vote) }

/-- `check_consensus(share_id)`: `(reached, approve_votes)`. -/
def check_consensus (cfg : HierConfig) (st : ValState) (uid : String) : Bool × Nat :=
  match assocFind st.vote_records uid with
  | none => (false, 0)
  | some votes =>
    let approve := (votes.filter (fun p => p.2 = 1)).length
    (approve ≥ cfg.consensus_threshold, approve)

/-- HTTP responses of the two validator handlers.  `staleRound` is the
reply required by the spec's §5 cancellation rule; the source never
produces it. -/
inductive ValResp where
  | share_received (validator_id : Nat) (share_id : String) (vote : Nat)
  | vote_recorded (validator_id : Nat)
  | error500
  | staleRound
deriving DecidableEq

/-- The `/validate_share` handler: cast a vote on the share and gossip it
(with the full request echoed) to the committee.  No round check of any
kind is performed and no per-round state exists at the validator. -/
def validate_share (cfg : HierConfig) (validatorIndex : Nat) (st : ValState)
    (req : ShareRequest) : ValState × ValResp × VoteMsg :=
  let share_id := req.share_uid
  let vote := cast_vote_value cfg req.share req.signature
  let st' := recordVote st share_id validatorIndex vote
  (st', .share_received validatorIndex share_id vote,
   ⟨share_id, validatorIndex, vote, some req⟩)

/-- The vote-recording phase of the `/receive_vote` handler (source lines
291-309): record the incoming vote, then cast and record an own vote if
this validator has not voted on the share yet and the payload is attached.
`receive_vote` below completes the handler; the split makes "the votes
recorded at forwarding time" expressible.  After a *successful* forward the
share's vote records are deleted — there is no per-share `forwarded`
flag. -/
def record_phase (cfg : HierConfig) (validatorIndex : Nat) (st : ValState)
    (vd : VoteMsg) : ValState :=
  let st1 := recordVote st vd.share_id vd.validator_id vd.vote
  match vd.share_data with
  | some req =>
    if ((assocFind st1.vote_records vd.share_id).getD []).any
        (fun p => p.1 = validatorIndex) then st1
    else recordVote st1 vd.share_id validatorIndex
      (cast_vote_value cfg req.share req.signature)
  | none => st1

/-- The consensus-and-forward phase of `/receive_vote`, applied to the state
left by `record_phase`. -/
def receive_vote (cfg : HierConfig) (validatorIndex : Nat) (st : ValState)
    (vd : VoteMsg) (netOk : Bool) : ValState × Option FwdMsg × ValResp :=
  let st2 := record_phase cfg validatorIndex st vd
  let c := check_consensus cfg st2 vd.share_id
  if c.1 then
    match vd.share_data with
    | none => (st2, none, .error500)
    | some req =>
      let fwd : FwdMsg :=
        ⟨req.facility_id, req.share,
         (((req.share.share_id : Int) - 1) % (cfg.num_fog_nodes : Int)).toNat,
         validatorIndex⟩
      if netOk then
        ({ st2 with
            validated_shares := st2.validated_shares ++ [vd.share_id]
            vote_records := st2.vote_records.filter (fun p => ¬ p.1 = vd.share_id) },
         some fwd, .vote_recorded validatorIndex)
      else (st2, some fwd, .vote_recorded validatorIndex)
  else (st2, none, .vote_recorded validatorIndex)

end Validator

/-! ## `hierleadserver.py`: the leader server -/

namespace Leader

/-- A weight vector: a list of layers, each a list of (real-valued, modelled
rational) entries. -/
abbrev Model : Type := List (List ℚ)

/-- Two models have the same layer shapes. -/
def shapeEq (a b : Model) : Bool :=
  a.length == b.length &&
    (List.zip a b).all (fun p => p.1.length == p.2.length)

/-- `np.zeros_like` of every layer. -/
def zerosLike (m : Model) : Model := m.map (fun l => l.map (fun _ => (0 : ℚ)))

/-- Layer-wise elementwise `+=`. -/
def addModel (a b : Model) : Model :=
  List.zipWith (fun x y => List.zipWith (· + ·) x y) a b

/-- `global_aggregation(fog_aggregations)` (`hierleadserver.py` lines
45-84): the layer-wise elementwise **sum** of the fog-node models — the
source explicitly does *not* divide by the number of fog nodes.  `none`
models the empty-input early return and the NumPy shape errors. -/
def global_aggregation (fog_models : List Model) : Option Model :=
  match fog_models with
  | [] => none
  | first :: rest =>
    if (first :: rest).all (fun m => shapeEq first m) then
      some ((first :: rest).foldl addModel (zerosLike first))
    else none

/-- Modelled from the spec (§4.4): "in the reference configuration every
fog node reconstructs every facility, so the spec requires instead dividing
the sum by G" — the layer-wise sum divided by the fog-node count `G`. -/
def global_aggregation_spec (G : Nat) (fog_models : List Model) : Option Model :=
  (global_aggregation fog_models).map
    (fun m => m.map (fun l => l.map (fun x => x / (G : ℚ))))

end Leader

/-! ## `hierta.py`: the trusted authority -/

namespace TA

/-- A facility's attribute dictionary (absent keys are `none`). -/
structure Attrs where
  facility_type : Option String
  region : Option String
  certified : Option Bool
deriving DecidableEq

/-- An access policy (`distribute_global_model` hardcodes
`{facility_type: hospital, certified: True}`). -/
structure Policy where
  facility_type : Option String
  region : Option String
  certified : Option Bool
deriving DecidableEq

/-- Python truthiness of `policy.get(...)` for a string field. -/
def truthyStr : Option String → Bool
  | none => false
  | some s => s.length != 0

/-- `check_facility_attributes(facility_attributes, access_policy)`
(`hierta.py` lines 87-105): only the attribute dictionary is consulted —
the facility's `status` plays no part. -/
def check_facility_attributes (fa : Attrs) (policy : Policy) : Bool :=
  if truthyStr policy.facility_type && ¬ (fa.facility_type == policy.facility_type) then
    false
  else if truthyStr policy.region && ¬ (fa.region == policy.region) then false
  else if policy.certified.isSome && ¬ (fa.certified == policy.certified) then false
  else true

/-- A `FacilityRecord` held in `registered_facilities`. -/
structure FacilityRecord where
  public_key : String
  attributes : Attrs
  status : String
deriving DecidableEq

/-- The TA's mutable module state. -/
structure TAState where
  registered_facilities : List (Nat × FacilityRecord)
  issued_keys : List (Nat × String)
deriving DecidableEq

/-- The `/revoke_facility` handler: set `status` to `"revoked"` and delete
the issued key; the registration entry and its attributes are kept.
Returns the state and whether the facility was found. -/
def revoke_facility (st : TAState) (fid : Nat) : TAState × Bool :=
  if (assocFind st.registered_facilities fid).isSome then
    ({ registered_facilities := st.registered_facilities.map (fun p =>
          if p.1 = fid then (p.1, { p.2 with status := "revoked" }) else p)
       issued_keys := st.issued_keys.filter (fun p => ¬ p.1 = fid) }, true)
  else (st, false)

/-- The access policy hardcoded in `distribute_global_model`. -/
def distribution_policy : Policy :=
  { facility_type := some "hospital", region := none, certified := some true }

/-- The facilities `distribute_global_model` posts the wrapped model to: all
registered facilities whose *attributes* satisfy the policy, in dictionary
order.  The facility `status` is never consulted. -/
def distribute_global_model (st : TAState) (round_num : Nat) : List Nat :=
  ((st.registered_facilities.filter (fun p =>
      check_facility_attributes p.2.attributes distribution_policy)).map
    (fun p => p.1))

end TA

/-! ## Association-list lemmas -/

theorem assocFind_assocSet {κ α : Type} [DecidableEq κ] (m : List (κ × α)) (k : κ) (v : α) :
    assocFind (assocSet m k v) k = some v := by
  induction m with
  | nil => simp [assocFind, assocSet]
  | cons q m ih =>
    by_cases hq : q.1 = k
    · simp [assocSet, assocFind, hq]
    · simpa [assocSet, assocFind, hq] using ih

theorem mem_assocSet {κ α : Type} [DecidableEq κ] {m : List (κ × α)} {k : κ} {v : α}
    {p : κ × α} (hp : p ∈ assocSet m k v) : p = (k, v) ∨ p ∈ m := by
  induction m with
  | nil => simpa [assocSet] using hp
  | cons q m ih =>
    by_cases hq : q.1 = k
    · rw [assocSet, if_pos hq] at hp
      rcases List.mem_cons.mp hp with h | h
      · exact Or.inl h
      · exact Or.inr (List.mem_cons_of_mem _ h)
    · rw [assocSet, if_neg hq] at hp
      rcases List.mem_cons.mp hp with h | h
      · exact Or.inr (h ▸ List.mem_cons_self _ _)
      · rcases ih h with h' | h'
        · exact Or.inl h'
        · exact Or.inr (List.mem_cons_of_mem _ h')

theorem assocFind_filter_ne {κ α : Type} [DecidableEq κ] (m : List (κ × α)) (k : κ) :
    assocFind (m.filter (fun p => ¬ p.1 = k)) k = none := by
  induction m with
  | nil => simp [assocFind]
  | cons q m ih =>
    by_cases hq : q.1 = k
    · simpa [List.filter_cons, hq] using ih
    · simpa [List.filter_cons, hq, assocFind] using ih

/-! ## C8: revocation and model distribution (`hierta.py`) -/

/-- C8 (code bug): after registering facility 0 with attributes that
satisfy the distribution policy and then revoking it, the TA still
distributes the global model to it: `revoke_facility` only flips the
`status` field, which `distribute_global_model` never consults.  The
revocation neither removes the facility from the eligible set nor makes any
policy fail for it. -/
theorem revoked_facility_still_receives_model :
    (((TA.revoke_facility
        { registered_facilities :=
            [(0, { public_key := "pk0"
                   attributes :=
                     { facility_type := some "hospital", region := some "north"
                       certified := some true }
                   status := "registered" })]
          issued_keys := [(0, "key0")] } 0).1.registered_facilities.map
        (fun p => (p.2.status))) = ["revoked"]) ∧
    TA.distribute_global_model
      (TA.revoke_facility
        { registered_facilities :=
            [(0, { public_key := "pk0"
                   attributes :=
                     { facility_type := some "hospital", region := some "north"
                       certified := some true }
                   status := "registered" })]
          issued_keys := [(0, "key0")] } 0).1 1 = [0] := by
  decide

/-! ## C3: the leader's global aggregation (`hierleadserver.py`) -/

/-- C3 (counterexample): with three fog partial aggregates `[[3]]` the code
produces the plain sum `[[9]]`, not the sum divided by `G = 3` that the
claim states. -/
theorem global_aggregation_does_not_divide :
    Leader.global_aggregation [[[3]], [[3]], [[3]]] = some [[9]] ∧
    Leader.global_aggregation_spec 3 [[[3]], [[3]], [[3]]] = some [[3]] ∧
    Leader.global_aggregation [[[3]], [[3]], [[3]]] ≠
      Leader.global_aggregation_spec 3 [[[3]], [[3]], [[3]]] := by
  refine ⟨?_, ?_, ?_⟩ <;>
    norm_num [Leader.global_aggregation, Leader.global_aggregation_spec,
      Leader.shapeEq, Leader.zerosLike, Leader.addModel]

theorem zipAdd_getD : ∀ (x y : List ℚ) (e : Nat), x.length = y.length →
    (List.zipWith (· + ·) x y).getD e 0 = x.getD e 0 + y.getD e 0
  | [], [], e, _ => by simp
  | [], _ :: _, _, hxy => by simp at hxy
  | _ :: _, [], _, hxy => by simp at hxy
  | u :: x, w :: y, 0, _ => by simp
  | u :: x, w :: y, e + 1, hxy => by
    simp only [List.zipWith_cons_cons, List.getD_cons_succ]
    exact zipAdd_getD x y e (by simpa using hxy)

/-- Two models with equal layer counts and equal layer lengths. -/
def SameShape (a b : Leader.Model) : Prop :=
  a.length = b.length ∧ ∀ i, i < a.length → (a.getD i []).length = (b.getD i []).length

theorem shapeEq_sameShape : ∀ {a b : Leader.Model}, Leader.shapeEq a b = true → SameShape a b := by
  intro a b h
  unfold Leader.shapeEq at h
  rw [Bool.and_eq_true] at h
  have hlen : a.length = b.length := by simpa using h.1
  refine ⟨hlen, ?_⟩
  intro i hi
  have hib : i < b.length := hlen ▸ hi
  have hiz : i < (List.zip a b).length := by
    rw [List.length_zip]
    omega
  have hmem : (a[i], b[i]) ∈ List.zip a b := by
    have hg : (List.zip a b)[i] = (a[i], b[i]) := List.getElem_zip
    exact hg ▸ List.getElem_mem hiz
  have h2 := List.all_eq_true.mp h.2 _ hmem
  simp only [beq_iff_eq] at h2
  rw [List.getD_eq_getElem a [] hi, List.getD_eq_getElem b [] hib]
  exact h2

theorem addModel_getD_eq : ∀ (a b : Leader.Model) (li : Nat), li < a.length → li < b.length →
    (Leader.addModel a b).getD li [] =
      List.zipWith (· + ·) (a.getD li []) (b.getD li [])
  | [], _, li, h, _ => absurd h (by simp)
  | _ :: _, [], li, _, h => absurd h (by simp)
  | x :: a, y :: b, 0, _, _ => by simp [Leader.addModel]
  | x :: a, y :: b, li + 1, h1, h2 => by
    simp only [Leader.addModel, List.zipWith_cons_cons, List.getD_cons_succ]
    exact addModel_getD_eq a b li (by simpa using h1) (by simpa using h2)

theorem zerosLike_getD : ∀ (m : Leader.Model) (li : Nat), li < m.length →
    (Leader.zerosLike m).getD li [] = (m.getD li []).map (fun _ => (0 : ℚ))
  | [], li, h => absurd h (by simp)
  | x :: m, 0, _ => by simp [Leader.zerosLike]
  | x :: m, li + 1, h => by
    simp only [Leader.zerosLike, List.map_cons, List.getD_cons_succ]
    exact zerosLike_getD m li (by simpa using h)

theorem getD_map_zero : ∀ (x : List ℚ) (e : Nat),
    (x.map (fun _ => (0 : ℚ))).getD e 0 = 0
  | [], _ => by simp
  | u :: x, 0 => by simp
  | u :: x, e + 1 => by
    simp only [List.map_cons, List.getD_cons_succ]
    exact getD_map_zero x e

theorem sameShape_addModel {acc m : Leader.Model} (h : SameShape acc m) :
    SameShape acc (Leader.addModel acc m) := by
  obtain ⟨hlen, hl⟩ := h
  have hlen' : (Leader.addModel acc m).length = acc.length := by
    unfold Leader.addModel
    rw [List.length_zipWith]
    omega
  refine ⟨hlen'.symm, ?_⟩
  intro i hi
  rw [addModel_getD_eq acc m i hi (hlen ▸ hi), List.length_zipWith]
  have := hl i hi
  omega

theorem foldl_addModel_entry : ∀ (ms : List Leader.Model) (acc : Leader.Model),
    (∀ m ∈ ms, SameShape acc m) → ∀ li e, li < acc.length →
    ((ms.foldl Leader.addModel acc).getD li []).getD e 0 =
      (acc.getD li []).getD e 0 + (ms.map (fun m => (m.getD li []).getD e 0)).sum
  | [], acc, _, li, e, _ => by simp
  | m :: ms, acc, hsh, li, e, hli => by
    have hm : SameShape acc m := hsh m (by simp)
    have hacc' : SameShape acc (Leader.addModel acc m) := sameShape_addModel hm
    have hsh' : ∀ m' ∈ ms, SameShape (Leader.addModel acc m) m' := by
      intro m' hm'
      obtain ⟨l1, f1⟩ := hacc'
      obtain ⟨l2, f2⟩ := hsh m' (List.mem_cons_of_mem _ hm')
      refine ⟨by omega, ?_⟩
      intro i hi
      have hia : i < acc.length := by omega
      rw [← f1 i hia]
      exact f2 i hia
    have hli' : li < (Leader.addModel acc m).length := by
      obtain ⟨l1, _⟩ := hacc'
      omega
    rw [List.foldl_cons, foldl_addModel_entry ms (Leader.addModel acc m) hsh' li e hli']
    have hadd : ((Leader.addModel acc m).getD li []).getD e 0 =
        (acc.getD li []).getD e 0 + (m.getD li []).getD e 0 := by
      rw [addModel_getD_eq acc m li hli (hm.1 ▸ hli)]
      exact zipAdd_getD _ _ e (hm.2 li hli)
    rw [hadd, List.map_cons, List.sum_cons]
    ring

/-- C3 (amended): for a nonempty, shape-consistent list of fog partial
aggregates the leader's global model is defined and every entry is the plain
sum of the corresponding fog-model entries — no division by the fog-node
count takes place. -/
theorem global_model_is_sum_of_fog_partials (first : Leader.Model)
    (rest : List Leader.Model)
    (hsh : ∀ m ∈ first :: rest, Leader.shapeEq first m = true) :
    ∃ g, Leader.global_aggregation (first :: rest) = some g ∧
      ∀ li e, li < first.length →
        (g.getD li []).getD e 0 =
          ((first :: rest).map (fun m => (m.getD li []).getD e 0)).sum := by
  have hall : (first :: rest).all (fun m => Leader.shapeEq first m) = true :=
    List.all_eq_true.mpr hsh
  refine ⟨(first :: rest).foldl Leader.addModel (Leader.zerosLike first), ?_, ?_⟩
  · simp only [Leader.global_aggregation]
    rw [if_pos hall]
  · intro li e hli
    have hz0 : (Leader.zerosLike first).length = first.length := by
      simp [Leader.zerosLike]
    have hsh0 : ∀ m ∈ first :: rest, SameShape (Leader.zerosLike first) m := by
      intro m hm
      obtain ⟨l2, f2⟩ := shapeEq_sameShape (hsh m hm)
      refine ⟨by omega, ?_⟩
      intro i hi
      have hif : i < first.length := by omega
      rw [zerosLike_getD first i hif, List.length_map]
      exact f2 i hif
    rw [foldl_addModel_entry _ _ hsh0 li e (by omega),
      zerosLike_getD first li hli, getD_map_zero, zero_add]

/-- Witness for `global_model_is_sum_of_fog_partials` at two one-layer fog
models. -/
theorem global_model_is_sum_of_fog_partials_witness :
    ∃ g, Leader.global_aggregation [[[2]], [[4]]] = some g ∧
      ∀ li e, li < ([[(2 : ℚ)]] : Leader.Model).length →
        (g.getD li []).getD e 0 =
          (([[[2]], [[4]]] : List Leader.Model).map
            (fun m => (m.getD li []).getD e 0)).sum :=
  global_model_is_sum_of_fog_partials [[2]] [[[4]]] (by decide)

/-! ## C7: the fog node's aggregation-launch condition (`hierfognode.py`) -/

/-- C7 (counterexample): starting from an empty fog state, deliver the same
committee-signed share of facility 0 three times and three distinct shares
of each of the facilities 1-3.  The readiness check then passes (it compares
raw buffer lengths against `secret_num_shares_computed = 3`), a further
delivery launches aggregation, and facility 0 is included in the
reconstruction — yet its buffer holds only one distinct share, fewer than
the threshold `k = 2`. -/
theorem fog_launch_with_duplicate_shares :
    (let sig := "aaaaaaaaaaaaaaaaaaaaaaaaaaaaaaaaaaaaaaaaaaaaaaaaaaaaaaaaaaaaaaaa"
     let dup : Fog.FogShareMsg := ⟨0, ⟨1, [1]⟩, sig⟩
     let mk : Nat → Nat → Fog.FogShareMsg := fun f i => ⟨f, ⟨i, [1]⟩, sig⟩
     let msgs : List Fog.FogShareMsg :=
       [dup, dup, dup, mk 1 1, mk 1 2, mk 1 3, mk 2 1, mk 2 2, mk 2 3,
        mk 3 1, mk 3 2, mk 3 3]
     let final : Fog.FogState :=
       msgs.foldl (fun s m => (Fog.receive_share hierConfig 0 s m).1) ⟨0, [], []⟩
     Fog.all_facilities_ready hierConfig final.shares_by_facility = true ∧
     (Fog.receive_share hierConfig 0 final dup).2.2 = true ∧
     ((assocFind final.shares_by_facility 0).getD []).dedup.length = 1 ∧
     1 < hierConfig.secret_threshold ∧
     0 ∈ (Fog.reconstruct_secret_shares final.shares_by_facility).map Prod.fst) := by
  decide

/-- C7 (amended): when the fog node launches aggregation, every facility's
buffer holds at least `secret_num_shares_computed` share *messages* — with
duplicate deliveries counted, not distinct shares. -/
theorem fog_launch_requires_full_buffers (cfg : HierConfig)
    (sbf : List (Nat × List Fog.FogShareMsg))
    (h : Fog.all_facilities_ready cfg sbf = true) :
    ∀ fid, fid < cfg.number_of_facilities →
      ∃ l, assocFind sbf fid = some l ∧ cfg.secret_num_shares_computed ≤ l.length := by
  intro fid hf
  have hall := List.all_eq_true.mp h fid (List.mem_range.mpr hf)
  cases hfind : assocFind sbf fid with
  | none =>
    rw [Fog.all_facilities_ready.eq_def] at h
    rw [hfind] at hall
    simp at hall
  | some l =>
    rw [hfind] at hall
    simp only [ge_iff_le, decide_eq_true_eq] at hall
    exact ⟨l, rfl, hall⟩

/-- Witness for `fog_launch_requires_full_buffers` at a one-facility
configuration. -/
theorem fog_launch_requires_full_buffers_witness :
    ∃ l, assocFind [(0, [Fog.FogShareMsg.mk 0 ⟨1, [1]⟩ "ab"])] 0 = some l ∧
      (HierConfig.mk 1 1 1 1 (some 1) 1).secret_num_shares_computed ≤ l.length :=
  fog_launch_requires_full_buffers (HierConfig.mk 1 1 1 1 (some 1) 1)
    [(0, [Fog.FogShareMsg.mk 0 ⟨1, [1]⟩ "ab"])] (by decide) 0 (by decide)

/-! ## C9: no stale-round handling (`hiervalidator.py`, `hierfognode.py`) -/

/-- C9 (counterexample): a `/validate_share` request carrying round 0,
processed by a validator already holding a vote record from a round-1
share, is handled normally — the response is not `StaleRound` and a vote is
recorded (the validator keeps no round counter at all); likewise a fog node
whose `training_round` is already 1 buffers an incoming share (whose message
carries no round identifier at all) and answers normally. -/
theorem no_stale_round_handling :
    (let req : Validator.ShareRequest := ⟨0, ⟨1, "abc1", 2, 3⟩, "uid-r0", "ab12", "pk", 0⟩
     let st : Validator.ValState := ⟨[("uid-r1", [(1, 1)])], []⟩
     let out := Validator.validate_share hierConfig 0 st req
     out.2.1 ≠ Validator.ValResp.staleRound ∧ out.1 ≠ st) ∧
    (let fmsg : Fog.FogShareMsg := ⟨0, ⟨1, [7]⟩, "aaaaaaaaaaaaaaaaaaaaaaaaaaaaaaaaaaaaaaaaaaaaaaaaaaaaaaaaaaaaaaaa"⟩
     let fst0 : Fog.FogState := ⟨1, [], []⟩
     let fout := Fog.receive_share hierConfig 0 fst0 fmsg
     fout.2.1 ≠ Fog.FogResp.staleRound ∧ fout.1 ≠ fst0) := by
  decide

/-- C9 (amended): neither handler performs any round check: `validate_share`
records a vote and never answers `StaleRound` whatever the request's round
field (the validator has no round counter), and the fog node's
`receive_share` (whose messages carry no round identifier) never answers
`StaleRound` and buffers every share whose committee signature passes the
format check, whatever its own `training_round`. -/
theorem handlers_ignore_rounds (cfg : HierConfig) (vi fi : Nat)
    (vst : Validator.ValState) (req : Validator.ShareRequest)
    (fst0 : Fog.FogState) (msg : Fog.FogShareMsg)
    (hsig : Fog.verify_committee_signature msg.committee_signature = true) :
    (Validator.validate_share cfg vi vst req).2.1 ≠ Validator.ValResp.staleRound ∧
    assocFind (Validator.validate_share cfg vi vst req).1.vote_records
      req.share_uid ≠ none ∧
    (Fog.receive_share cfg fi fst0 msg).2.1 ≠ Fog.FogResp.staleRound ∧
    (Fog.receive_share cfg fi fst0 msg).1.received_shares =
      fst0.received_shares ++ [msg] := by
  refine ⟨by simp [Validator.validate_share], ?_, ?_, ?_⟩
  · show assocFind
      (Validator.recordVote vst req.share_uid vi
        (Validator.cast_vote_value cfg req.share req.signature)).vote_records
      req.share_uid ≠ none
    rw [Validator.recordVote]
    rw [assocFind_assocSet]
    simp
  · rw [Fog.receive_share, if_neg (by simp [hsig])]
    simp
  · rw [Fog.receive_share, if_neg (by simp [hsig])]

/-- Witness for `handlers_ignore_rounds`. -/
theorem handlers_ignore_rounds_witness :
    (Validator.validate_share hierConfig 0 ⟨[], []⟩
        ⟨0, ⟨1, "ab", 2, 3⟩, "u1", "ab12", "pk", 0⟩).2.1 ≠
      Validator.ValResp.staleRound ∧
    assocFind (Validator.validate_share hierConfig 0 ⟨[], []⟩
      ⟨0, ⟨1, "ab", 2, 3⟩, "u1", "ab12", "pk", 0⟩).1.vote_records "u1" ≠ none ∧
    (Fog.receive_share hierConfig 0 ⟨0, [], []⟩ ⟨0, ⟨1, [7]⟩, "aaaaaaaaaaaaaaaaaaaaaaaaaaaaaaaaaaaaaaaaaaaaaaaaaaaaaaaaaaaaaaaa"⟩).2.1 ≠
      Fog.FogResp.staleRound ∧
    (Fog.receive_share hierConfig 0 ⟨0, [], []⟩ ⟨0, ⟨1, [7]⟩, "aaaaaaaaaaaaaaaaaaaaaaaaaaaaaaaaaaaaaaaaaaaaaaaaaaaaaaaaaaaaaaaa"⟩).1.received_shares =
      ([] : List Fog.FogShareMsg) ++ [⟨0, ⟨1, [7]⟩, "aaaaaaaaaaaaaaaaaaaaaaaaaaaaaaaaaaaaaaaaaaaaaaaaaaaaaaaaaaaaaaaa"⟩] :=
  handlers_ignore_rounds hierConfig 0 0 ⟨[], []⟩
    ⟨0, ⟨1, "ab", 2, 3⟩, "u1", "ab12", "pk", 0⟩ ⟨0, [], []⟩
    ⟨0, ⟨1, [7]⟩, "aaaaaaaaaaaaaaaaaaaaaaaaaaaaaaaaaaaaaaaaaaaaaaaaaaaaaaaaaaaaaaaa"⟩ (by decide)

/-! ## C10: determinism of the optimized splitter (`shamir_secret_sharing.py`) -/

/-- C10: the `OptimizedShamirSecretSharing` constructor takes only
`(threshold, num_shares)` and seeds its generator with the constant 42, so
two freshly constructed instances are equal, hold the stream position 0,
and produce byte-identical share lists for every secret — the shares are a
function of `(secret, threshold, num_shares)` alone. -/
theorem optimized_split_deterministic (t n : Nat) (i₁ i₂ : OptSSS.Instance)
    (secret : List Nat)
    (h₁ : OptSSS.init t n = .ok i₁) (h₂ : OptSSS.init t n = .ok i₂) :
    i₁ = i₂ ∧ i₁.rngPos = 0 ∧ i₁.split secret = i₂.split secret := by
  rw [OptSSS.init] at h₁ h₂
  by_cases h : t > n
  · rw [if_pos h] at h₁
    cases h₁
  · rw [if_neg h] at h₁ h₂
    cases h₁
    cases h₂
    exact ⟨rfl, rfl, rfl⟩

/-- Witness for `optimized_split_deterministic`. -/
theorem optimized_split_deterministic_witness :
    (⟨2, 3, 0⟩ : OptSSS.Instance) = ⟨2, 3, 0⟩ ∧
    (⟨2, 3, 0⟩ : OptSSS.Instance).rngPos = 0 ∧
    OptSSS.Instance.split ⟨2, 3, 0⟩ [5] = OptSSS.Instance.split ⟨2, 3, 0⟩ [5] :=
  optimized_split_deterministic 2 3 ⟨2, 3, 0⟩ ⟨2, 3, 0⟩ [5] (by decide) (by decide)

/-! ## C4: shares can be forwarded more than once (`hiervalidator.py`) -/

/-- C4 (counterexample): from an empty validator state, an approve vote from
validator 1 for share `s1` makes validator 0 cast its own approving vote,
reach the quorum of 2, and forward the share; the successful forward deletes
the share's vote records, so a later approve vote from validator 2 for the
*same* `share_uid` rebuilds the record, reaches the quorum again, and
triggers a second forward.  There is no per-share forwarded flag. -/
theorem share_forwarded_twice :
    (let req : Validator.ShareRequest := ⟨0, ⟨1, "ab", 2, 3⟩, "s1", "ab12", "pk", 0⟩
     let ev1 : Validator.VoteMsg := ⟨"s1", 1, 1, some req⟩
     let ev2 : Validator.VoteMsg := ⟨"s1", 2, 1, some req⟩
     let out1 := Validator.receive_vote hierConfig 0 ⟨[], []⟩ ev1 true
     let out2 := Validator.receive_vote hierConfig 0 out1.1 ev2 true
     out1.2.1.isSome = true ∧ out2.2.1.isSome = true ∧
     out2.1.validated_shares = ["s1", "s1"]) := by
  decide

/-- C4 (amended): within one `receive_vote` call at most one forward is
attempted, and after a *successful* forward the share's vote records are
deleted and the share is appended to `validated_shares`; nothing prevents a
later vote for the same `share_uid` from producing another forward. -/
theorem successful_forward_clears_vote_records (cfg : HierConfig) (vi : Nat)
    (st : Validator.ValState) (vd : Validator.VoteMsg)
    (hfwd : ((Validator.receive_vote cfg vi st vd true).2.1).isSome = true) :
    assocFind (Validator.receive_vote cfg vi st vd true).1.vote_records
      vd.share_id = none ∧
    vd.share_id ∈ (Validator.receive_vote cfg vi st vd true).1.validated_shares := by
  cases hsd : vd.share_data with
  | none =>
    by_cases hc : (Validator.check_consensus cfg
      (Validator.record_phase cfg vi st vd) vd.share_id).1
    · simp only [Validator.receive_vote, hsd, hc, if_true] at hfwd
      simp at hfwd
    · simp only [Validator.receive_vote, hc, if_false] at hfwd
      simp at hfwd
  | some req =>
    by_cases hc : (Validator.check_consensus cfg
      (Validator.record_phase cfg vi st vd) vd.share_id).1
    · simp only [Validator.receive_vote, hsd, hc, if_true]
      exact ⟨assocFind_filter_ne _ _, by simp⟩
    · simp only [Validator.receive_vote, hc, if_false] at hfwd
      simp at hfwd

/-- Witness for `successful_forward_clears_vote_records`. -/
theorem successful_forward_clears_vote_records_witness :
    assocFind (Validator.receive_vote hierConfig 0 ⟨[], []⟩
        ⟨"w1", 1, 1, some ⟨0, ⟨1, "ab", 2, 3⟩, "w1", "ab12", "pk", 0⟩⟩ true).1.vote_records
      (Validator.VoteMsg.mk "w1" 1 1
        (some ⟨0, ⟨1, "ab", 2, 3⟩, "w1", "ab12", "pk", 0⟩)).share_id = none ∧
    (Validator.VoteMsg.mk "w1" 1 1
        (some ⟨0, ⟨1, "ab", 2, 3⟩, "w1", "ab12", "pk", 0⟩)).share_id ∈
      (Validator.receive_vote hierConfig 0 ⟨[], []⟩
        ⟨"w1", 1, 1, some ⟨0, ⟨1, "ab", 2, 3⟩, "w1", "ab12", "pk", 0⟩⟩ true).1.validated_shares :=
  successful_forward_clears_vote_records hierConfig 0 ⟨[], []⟩
    ⟨"w1", 1, 1, some ⟨0, ⟨1, "ab", 2, 3⟩, "w1", "ab12", "pk", 0⟩⟩ (by decide)

/-! ## C2: what the fog node actually reconstructs (`hierfognode.py`) -/

/-- C2 (counterexample): for two shares of one facility with ids 1 and 2 and
fragments `[10, 20]` and `[30, 40]`, the fog node's recovery concatenates
the sorted fragments into `[10, 20, 30, 40]`, while the byte-wise Lagrange
interpolation at x = 0 demanded by the claim yields `[247, 0]`. -/
theorem fog_reconstruct_is_not_interpolation :
    (let m1 : Fog.FogShareMsg := ⟨0, ⟨1, [10, 20]⟩, "s"⟩
     let m2 : Fog.FogShareMsg := ⟨0, ⟨2, [30, 40]⟩, "s"⟩
     Fog.reconstruct_bytes [m2, m1] = [10, 20, 30, 40] ∧
     Fog.reconstruct_bytes_spec [m2, m1] = [247, 0] ∧
     Fog.reconstruct_bytes [m2, m1] ≠ Fog.reconstruct_bytes_spec [m2, m1]) := by
  decide

instance fogShareLeTotal :
    IsTotal Fog.FogShareMsg (fun a b => a.share.share_id ≤ b.share.share_id) :=
  ⟨fun a b => Nat.le_total _ _⟩

instance fogShareLeTrans :
    IsTrans Fog.FogShareMsg (fun a b => a.share.share_id ≤ b.share.share_id) :=
  ⟨fun _ _ _ => Nat.le_trans⟩

/-- A permutation of a list that is sorted by a duplicate-free key is unique:
used to show the fog node's sort output is exactly the canonical share
order. -/
theorem perm_sorted_nodup_key_eq {α : Type} (f : α → Nat) :
    ∀ (l₁ l₂ : List α), l₁.Perm l₂ →
      l₁.Sorted (fun a b => f a ≤ f b) → l₂.Sorted (fun a b => f a ≤ f b) →
      (l₂.map f).Nodup → l₁ = l₂
  | [], l₂, p, _, _, _ => (p.nil_eq).symm ▸ rfl
  | a :: t, l₂, p, s₁, s₂, nd => by
    match l₂ with
    | [] => exact absurd p.symm.nil_eq (by simp)
    | b :: t₂ =>
      have hs₁ := List.sorted_cons.mp s₁
      have hs₂ := List.sorted_cons.mp s₂
      have hab : f a = f b := by
        have ha2 : a ∈ b :: t₂ := p.subset (List.mem_cons_self _ _)
        have hb1 : b ∈ a :: t := p.symm.subset (List.mem_cons_self _ _)
        have h1 : f b ≤ f a := by
          rcases List.mem_cons.mp ha2 with h | h
          · rw [h]
          · exact hs₂.1 a h
        have h2 : f a ≤ f b := by
          rcases List.mem_cons.mp hb1 with h | h
          · rw [h]
          · exact hs₁.1 b h
        omega
      have haeb : a = b := by
        rcases List.mem_cons.mp (p.subset (List.mem_cons_self a t)) with h | h
        · exact h
        · exfalso
          have hnd := List.nodup_cons.mp nd
          exact hnd.1 (hab ▸ List.mem_map_of_mem f h)
      subst haeb
      have hteq : t = t₂ :=
        perm_sorted_nodup_key_eq f t t₂ p.cons_inv hs₁.2 hs₂.2
          (List.nodup_cons.mp nd).2
      rw [hteq]

/-- C2 (amended): the fog node recovers a facility's byte string by sorting
the buffered share messages by `share_id` and concatenating their decoded
fragments, with no interpolation: for any arrival order (a permutation of a
canonical buffer with duplicate-free, sorted ids) it returns exactly the
concatenation of the canonical fragments. -/
theorem fog_recover_concatenates_in_id_order
    (canonical l : List Fog.FogShareMsg) (hperm : l.Perm canonical)
    (hsorted : canonical.Sorted (fun a b => a.share.share_id ≤ b.share.share_id))
    (hnodup : (canonical.map (fun m => m.share.share_id)).Nodup) :
    Fog.reconstruct_bytes l =
      (canonical.map (fun m => m.share.data_fragment)).flatten := by
  unfold Fog.reconstruct_bytes Fog.sortByShareId
  have hs := List.sorted_insertionSort
    (fun a b : Fog.FogShareMsg => a.share.share_id ≤ b.share.share_id) l
  have hp := List.perm_insertionSort
    (fun a b : Fog.FogShareMsg => a.share.share_id ≤ b.share.share_id) l
  rw [perm_sorted_nodup_key_eq (fun m => m.share.share_id) _ _
    (hp.trans hperm) hs hsorted hnodup]

/-- Witness for `fog_recover_concatenates_in_id_order`. -/
theorem fog_recover_concatenates_in_id_order_witness :
    Fog.reconstruct_bytes
        [⟨0, ⟨2, [30, 40]⟩, "s"⟩, ⟨0, ⟨1, [10, 20]⟩, "s"⟩] =
      (([⟨0, ⟨1, [10, 20]⟩, "s"⟩, ⟨0, ⟨2, [30, 40]⟩, "s"⟩] :
          List Fog.FogShareMsg).map (fun m => m.share.data_fragment)).flatten :=
  fog_recover_concatenates_in_id_order
    [⟨0, ⟨1, [10, 20]⟩, "s"⟩, ⟨0, ⟨2, [30, 40]⟩, "s"⟩]
    [⟨0, ⟨2, [30, 40]⟩, "s"⟩, ⟨0, ⟨1, [10, 20]⟩, "s"⟩]
    (by decide) (by decide) (by decide)

/-! ## C5: admitted shares have a quorum of approvals and a verifying
signature (`hiervalidator.py`) -/

theorem cast_vote_one_implies_verify (cfg : HierConfig) (share : Validator.VShare)
    (sig : String) (h : Validator.cast_vote_value cfg share sig = 1) :
    Validator.verify_facility_signature sig = true := by
  by_cases hv : Validator.verify_facility_signature sig = true
  · exact hv
  · rw [Validator.cast_vote_value, if_pos (by simpa using hv)] at h
    cases h

theorem mem_recordVote (st : Validator.ValState) (uid : String) (vid v : Nat)
    (p : Nat × Nat)
    (hp : p ∈ (assocFind (Validator.recordVote st uid vid v).vote_records uid).getD []) :
    p = (vid, v) ∨ p ∈ (assocFind st.vote_records uid).getD [] := by
  rw [Validator.recordVote] at hp
  simp only at hp
  rw [assocFind_assocSet] at hp
  simp only [Option.getD_some] at hp
  exact mem_assocSet hp

theorem mem_record_phase (cfg : HierConfig) (vi : Nat) (st : Validator.ValState)
    (vd : Validator.VoteMsg) (p : Nat × Nat)
    (hp : p ∈ (assocFind (Validator.record_phase cfg vi st vd).vote_records
      vd.share_id).getD []) :
    p = (vd.validator_id, vd.vote) ∨
    (∃ req, vd.share_data = some req ∧
      p = (vi, Validator.cast_vote_value cfg req.share req.signature)) ∨
    p ∈ (assocFind st.vote_records vd.share_id).getD [] := by
  rw [Validator.record_phase] at hp
  cases hsd : vd.share_data with
  | none =>
    rw [hsd] at hp
    simp only at hp
    rcases mem_recordVote st vd.share_id vd.validator_id vd.vote p hp with h | h
    · exact Or.inl h
    · exact Or.inr (Or.inr h)
  | some req =>
    rw [hsd] at hp
    simp only at hp
    by_cases hvoted : ((assocFind
        (Validator.recordVote st vd.share_id vd.validator_id vd.vote).vote_records
        vd.share_id).getD []).any (fun q => q.1 = vi)
    · rw [if_pos hvoted] at hp
      rcases mem_recordVote st vd.share_id vd.validator_id vd.vote p hp with h | h
      · exact Or.inl h
      · exact Or.inr (Or.inr h)
    · rw [if_neg hvoted] at hp
      rcases mem_recordVote _ vd.share_id vi
          (Validator.cast_vote_value cfg req.share req.signature) p hp with h | h
      · exact Or.inr (Or.inl ⟨req, rfl, h⟩)
      · rcases mem_recordVote st vd.share_id vd.validator_id vd.vote p h with h' | h'
        · exact Or.inl h'
        · exact Or.inr (Or.inr h')

/-- C5 counterexample: committee admission is independent of any
signature–payload relationship.  In two otherwise identical executions the
single signature string `"ab12"` gets two shares with *different* payloads
forwarded to a fog node: `verify_facility_signature` (the only signature
check in the pipeline) is a pure format check of the signature string that
never reads the payload, and gossiped votes are recorded unchecked.  Under
any payload-binding notion of verification — in particular the client's
signing scheme of spec §4.2, under which a fixed signature verifies over at
most one payload — at least one of these two admitted shares has a signature
that does not verify over its payload; the spec's §8 byte-flip scenario
(payload altered after signing) is admitted the same way. -/
theorem admitted_share_signature_ignores_payload :
    Validator.verify_facility_signature "ab12" = true ∧
    (Validator.receive_vote hierConfig 0 ⟨[], []⟩
        ⟨"c5x", 1, 1, some ⟨0, ⟨1, "ab", 2, 3⟩, "c5x", "ab12", "pk", 0⟩⟩ true).2.1 =
      some ⟨0, ⟨1, "ab", 2, 3⟩, 0, 0⟩ ∧
    (Validator.receive_vote hierConfig 0 ⟨[], []⟩
        ⟨"c5y", 1, 1, some ⟨0, ⟨1, "cd", 2, 3⟩, "c5y", "ab12", "pk", 0⟩⟩ true).2.1 =
      some ⟨0, ⟨1, "cd", 2, 3⟩, 0, 0⟩ ∧
    (Validator.VShare.mk 1 "ab" 2 3) ≠ (Validator.VShare.mk 1 "cd" 2 3) := by
  decide

/-- C5 (amended): when a validator running `receive_vote` forwards a share
to a fog node, at forwarding time at least `consensus_threshold` approve
votes are recorded for that `share_uid` at this validator, and the forwarded
share is the gossiped payload.  The only signature gate anywhere is
`verify_facility_signature`, a format check of the signature string (any
nonempty hex or base64-decodable text) that never reads the payload: it
bounds only the validator's locally cast vote (`cast_vote` approves only if
it passes), while gossiped votes are recorded without any check — so
admission does not imply that the issuer signature verifies over the share
payload. -/
theorem admitted_share_quorum_and_format_gate
    (cfg : HierConfig) (vi : Nat) (st : Validator.ValState)
    (vd : Validator.VoteMsg) (netOk : Bool) (req : Validator.ShareRequest)
    (fwd : Validator.FwdMsg)
    (hdata : vd.share_data = some req)
    (hout : (Validator.receive_vote cfg vi st vd netOk).2.1 = some fwd) :
    cfg.consensus_threshold ≤
      (Validator.check_consensus cfg (Validator.record_phase cfg vi st vd)
        vd.share_id).2 ∧
    fwd.share = req.share ∧
    (∀ (share : Validator.VShare) (sig : String),
      Validator.cast_vote_value cfg share sig = 1 →
      Validator.verify_facility_signature sig = true) := by
  by_cases hc : (Validator.check_consensus cfg (Validator.record_phase cfg vi st vd)
      vd.share_id).1
  case neg =>
    exfalso
    simp only [Validator.receive_vote, if_neg hc] at hout
    cases hout
  case pos =>
    simp only [Validator.receive_vote, hdata, if_pos hc] at hout
    have hfwd : fwd.share = req.share := by
      cases netOk with
      | true =>
        simp only [if_pos rfl] at hout
        cases hout
        rfl
      | false =>
        rw [if_neg (by decide)] at hout
        cases hout
        rfl
    refine ⟨?_, hfwd, fun share sig h =>
      cast_vote_one_implies_verify cfg share sig h⟩
    cases hfind : assocFind (Validator.record_phase cfg vi st vd).vote_records
        vd.share_id with
    | none =>
      rw [Validator.check_consensus, hfind] at hc
      simp at hc
    | some votes =>
      rw [Validator.check_consensus, hfind] at hc
      rw [Validator.check_consensus, hfind]
      simp only [decide_eq_true_eq, ge_iff_le] at hc
      simpa using hc

/-- Witness for `admitted_share_quorum_and_format_gate`. -/
theorem admitted_share_quorum_and_format_gate_witness :
    hierConfig.consensus_threshold ≤
      (Validator.check_consensus hierConfig
        (Validator.record_phase hierConfig 0 ⟨[], []⟩
          ⟨"c5", 1, 1, some ⟨0, ⟨1, "ab", 2, 3⟩, "c5", "ab12", "pk", 0⟩⟩) "c5").2 ∧
    (Validator.FwdMsg.mk 0 ⟨1, "ab", 2, 3⟩ 0 0).share =
      (Validator.ShareRequest.mk 0 ⟨1, "ab", 2, 3⟩ "c5" "ab12" "pk" 0).share ∧
    (∀ (share : Validator.VShare) (sig : String),
      Validator.cast_vote_value hierConfig share sig = 1 →
      Validator.verify_facility_signature sig = true) :=
  admitted_share_quorum_and_format_gate hierConfig 0 ⟨[], []⟩
    ⟨"c5", 1, 1, some ⟨0, ⟨1, "ab", 2, 3⟩, "c5", "ab12", "pk", 0⟩⟩ true
    ⟨0, ⟨1, "ab", 2, 3⟩, "c5", "ab12", "pk", 0⟩ ⟨0, ⟨1, "ab", 2, 3⟩, 0, 0⟩
    rfl (by decide)

/-! ## Correctness of the small-path Shamir reconstruction

The proofs lift the source's `Int`-with-`emod` arithmetic to the field
`ZMod 257` and use Mathlib's Lagrange interpolation. -/

theorem egcd_spec : ∀ (a b : Nat),
    (ShamirSSS.extended_gcd a b).1 = Nat.gcd a b ∧
    (ShamirSSS.extended_gcd a b).2.1 * (a : ℤ) +
      (ShamirSSS.extended_gcd a b).2.2 * (b : ℤ) = (Nat.gcd a b : ℤ) := by
  intro a
  induction a using Nat.strong_induction_on with
  | _ a ih =>
    intro b
    rw [ShamirSSS.extended_gcd_eq]
    by_cases ha : a = 0
    · subst ha
      simp
    · rw [if_neg ha]
      have hlt : b % a < a := Nat.mod_lt _ (Nat.pos_of_ne_zero ha)
      obtain ⟨hg, hx⟩ := ih (b % a) hlt a
      have hgcd : Nat.gcd a b = Nat.gcd (b % a) a := (Nat.gcd_rec a b).trans rfl
      refine ⟨by simpa [hgcd] using hg, ?_⟩
      have hdm : ((b / a : Nat) : ℤ) * (a : ℤ) + ((b % a : Nat) : ℤ) = (b : ℤ) := by
        push_cast
        rw [mul_comm]
        exact_mod_cast Nat.div_add_mod b a
      rw [hgcd]
      calc ((ShamirSSS.extended_gcd (b % a) a).2.2 -
            ((b / a : Nat) : ℤ) * (ShamirSSS.extended_gcd (b % a) a).2.1) * (a : ℤ) +
            (ShamirSSS.extended_gcd (b % a) a).2.1 * (b : ℤ)
          = (ShamirSSS.extended_gcd (b % a) a).2.1 * ((b : ℤ) - ((b / a : Nat) : ℤ) * a) +
            (ShamirSSS.extended_gcd (b % a) a).2.2 * (a : ℤ) := by ring
        _ = (ShamirSSS.extended_gcd (b % a) a).2.1 * ((b % a : Nat) : ℤ) +
            (ShamirSSS.extended_gcd (b % a) a).2.2 * (a : ℤ) := by
              rw [show (b : ℤ) - ((b / a : Nat) : ℤ) * a = ((b % a : Nat) : ℤ) by omega]
        _ = (Nat.gcd (b % a) a : ℤ) := hx

theorem intCast_emod_zmod (x : ℤ) : (((x % 257 : ℤ)) : ZMod 257) = (x : ZMod 257) := by
  conv_rhs => rw [← Int.emod_add_ediv x 257]
  push_cast
  rw [show (257 : ZMod 257) = 0 by decide]
  ring

theorem toNat_cast_zmod (z : ℤ) (hz : 0 ≤ z) :
    ((z.toNat : ℕ) : ZMod 257) = (z : ZMod 257) := by
  have : ((z.toNat : ℕ) : ℤ) = z := Int.toNat_of_nonneg hz
  exact_mod_cast congrArg (fun w : ℤ => (w : ZMod 257)) this

/-- `_mod_inverse` succeeds on every `a` that is invertible mod 257 and
returns (the canonical representative of) the field inverse. -/
theorem mod_inverse_spec (a : Nat) (h : Nat.gcd (a % 257) 257 = 1) :
    ∃ u, ShamirSSS.mod_inverse a 257 = some u ∧
      ((u : ZMod 257) * (a : ZMod 257) = 1) := by
  obtain ⟨hg, hx⟩ := egcd_spec (a % 257) 257
  rw [h] at hg hx
  refine ⟨(((ShamirSSS.extended_gcd (a % 257) 257).2.1 % (257 : ℤ) + (257 : ℤ))
    % (257 : ℤ)).toNat, ?_, ?_⟩
  · simp [ShamirSSS.mod_inverse, hg]
  · have hnn : 0 ≤ ((ShamirSSS.extended_gcd (a % 257) 257).2.1 % (257 : ℤ) + 257)
        % (257 : ℤ) :=
      Int.emod_nonneg _ (by norm_num)
    rw [toNat_cast_zmod _ hnn, intCast_emod_zmod]
    have hred : ((((ShamirSSS.extended_gcd (a % 257) 257).2.1 % 257 + 257 : ℤ)) : ZMod 257)
        = (((ShamirSSS.extended_gcd (a % 257) 257).2.1 : ℤ) : ZMod 257) := by
      push_cast
      rw [intCast_emod_zmod, show (257 : ZMod 257) = 0 by decide]
      ring
    rw [hred]
    have hamod : (((a % 257 : ℕ)) : ZMod 257) = (a : ZMod 257) := by
      conv_rhs => rw [← Nat.mod_add_div a 257]
      push_cast
      rw [show (257 : ZMod 257) = 0 by decide]
      ring
    rw [← hamod]
    have hzm := congrArg (fun w : ℤ => (w : ZMod 257)) hx
    simp only [Int.cast_add, Int.cast_mul, Int.cast_natCast, Int.cast_one] at hzm
    rw [ZMod.natCast_self] at hzm
    simp only [mul_zero, add_zero] at hzm
    exact hzm

theorem natCast_mod_zmod (a : ℕ) : ((a % 257 : ℕ) : ZMod 257) = (a : ZMod 257) := by
  conv_rhs => rw [← Nat.mod_add_div a 257]
  push_cast
  rw [show (257 : ZMod 257) = 0 by decide]
  ring

/-- The semantic value of a coefficient list over `GF(257)`: the power-sum
evaluation (computable; used as the reference meaning of the source's Horner
loop). -/
def evalPolyZ (coeffs : List Nat) (x : ZMod 257) : ZMod 257 :=
  ∑ i ∈ Finset.range coeffs.length, ((coeffs.getD i 0 : ℕ) : ZMod 257) * x ^ i

theorem coeffPoly_degree_lt (coeffs : List Nat) :
    (∑ i ∈ Finset.range coeffs.length,
      Polynomial.C ((coeffs.getD i 0 : ℕ) : ZMod 257) * Polynomial.X ^ i).degree <
      (coeffs.length : WithBot ℕ) := by
  apply lt_of_le_of_lt (Polynomial.degree_sum_le _ _)
  rw [Finset.sup_lt_iff (WithBot.bot_lt_coe _)]
  intro i hi
  exact lt_of_le_of_lt (Polynomial.degree_C_mul_X_pow_le _ _)
    (by exact_mod_cast List.mem_range.mp hi)

theorem coeffPoly_eval (coeffs : List Nat) (x : ZMod 257) :
    (∑ i ∈ Finset.range coeffs.length,
      Polynomial.C ((coeffs.getD i 0 : ℕ) : ZMod 257) * Polynomial.X ^ i).eval x =
      evalPolyZ coeffs x := by
  rw [evalPolyZ, Polynomial.eval_finset_sum]
  simp

/-- The source's Horner evaluation mod 257 is the power-sum evaluation over
`GF(257)`. -/
theorem polynomial_eval_cast (coeffs : List Nat) (x : Nat) :
    ((ShamirSSS.polynomial_eval coeffs x : ℕ) : ZMod 257) =
      evalPolyZ coeffs ((x : ℕ) : ZMod 257) := by
  rw [evalPolyZ, ShamirSSS.polynomial_eval, List.foldl_reverse]
  simp only [ShamirSSS.prime]
  induction coeffs with
  | nil => simp
  | cons c rest ih =>
    rw [List.foldr_cons, natCast_mod_zmod]
    push_cast
    rw [ih, List.length_cons, Finset.sum_range_succ']
    simp only [List.getD_cons_succ, List.getD_cons_zero, pow_zero, mul_one]
    rw [Finset.sum_mul]
    congr 1
    refine Finset.sum_congr rfl (fun i _ => ?_)
    ring

/-- The x-coordinate of point `j` of a share list, in `GF(257)`. -/
def ptsX (q : List (Nat × Nat)) (j : Nat) : ZMod 257 := ((q.getD j (0, 0)).1 : ZMod 257)

/-- The y-value of point `i` of a share list, in `GF(257)`. -/
def ptsY (q : List (Nat × Nat)) (i : Nat) : ZMod 257 := ((q.getD i (0, 0)).2 : ZMod 257)

/-- The Lagrange numerator product for node `i` at evaluation point `x₀`. -/
def nProd (x₀ : ZMod 257) (q : List (Nat × Nat)) (t i : Nat) : ZMod 257 :=
  ∏ j ∈ (Finset.range t).erase i, (x₀ - ptsX q j)

/-- The Lagrange denominator product for node `i`. -/
def dProd (q : List (Nat × Nat)) (t i : Nat) : ZMod 257 :=
  ∏ j ∈ (Finset.range t).erase i, (ptsX q i - ptsX q j)

/-- The full Lagrange sum at `x₀` over the first `t` nodes. -/
def lagSum (x₀ : ZMod 257) (q : List (Nat × Nat)) (t : Nat) : ZMod 257 :=
  ∑ i ∈ Finset.range t, ptsY q i * ((nProd x₀ q t i) * (dProd q t i)⁻¹)

theorem enum_eq_range_map {α : Type} (l : List α) (d : α) :
    l.enum = (List.range l.length).map (fun j => (j, l.getD j d)) := by
  apply List.ext_getElem
  · simp
  · intro i h1 h2
    simp only [List.getElem_enum, List.getElem_map, List.getElem_range]
    rw [List.getD_eq_getElem l d (by simpa using h1)]

theorem list_range_prod {M : Type} [CommMonoid M] (g : Nat → M) :
    ∀ n, ((List.range n).map g).prod = ∏ j ∈ Finset.range n, g j
  | 0 => by simp
  | n + 1 => by
    rw [List.range_succ, List.map_append, List.prod_append, Finset.prod_range_succ,
      list_range_prod g n]
    simp

theorem list_range_sum {M : Type} [AddCommMonoid M] (g : Nat → M) :
    ∀ n, ((List.range n).map g).sum = ∑ j ∈ Finset.range n, g j
  | 0 => by simp
  | n + 1 => by
    rw [List.range_succ, List.map_append, List.sum_append, Finset.sum_range_succ,
      list_range_sum g n]
    simp

theorem guard_prod_erase {M : Type} [CommMonoid M] (g : Nat → M) (t i : Nat) :
    ((List.range t).map (fun j => if i ≠ j then g j else 1)).prod =
      ∏ j ∈ (Finset.range t).erase i, g j := by
  rw [list_range_prod]
  rw [← Finset.prod_erase (Finset.range t)
    (f := fun j => if i ≠ j then g j else 1) (a := i) (by simp)]
  refine Finset.prod_congr rfl (fun j hj => ?_)
  rw [if_pos]
  exact fun he => (Finset.mem_erase.mp hj).1 he.symm

/-- The inner double loop of `_lagrange_interpolation`: invariants and field
value of the numerator/denominator accumulator. -/
theorem lagrange_inner_fold (i : Nat) (x₀ xi : ℤ) (xs : Nat → ℤ) :
    ∀ (js : List Nat) (nd : ℤ × ℤ), 0 ≤ nd.1 → nd.1 < 257 → 0 ≤ nd.2 → nd.2 < 257 →
    (let out := js.foldl (fun (nd : ℤ × ℤ) j =>
        if i ≠ j then
          ((nd.1 * (x₀ - xs j)) % 257, (nd.2 * (xi - xs j)) % 257)
        else nd) nd
     0 ≤ out.1 ∧ out.1 < 257 ∧ 0 ≤ out.2 ∧ out.2 < 257 ∧
     (out.1 : ZMod 257) = (nd.1 : ZMod 257) *
       ((js.map (fun j => if i ≠ j then ((x₀ : ZMod 257) - ((xs j : ℤ) : ZMod 257)) else 1)).prod) ∧
     (out.2 : ZMod 257) = (nd.2 : ZMod 257) *
       ((js.map (fun j => if i ≠ j then (((xi : ℤ) : ZMod 257) - ((xs j : ℤ) : ZMod 257)) else 1)).prod))
  | [], nd, h1, h2, h3, h4 => ⟨h1, h2, h3, h4, by simp, by simp⟩
  | j :: js, nd, h1, h2, h3, h4 => by
    by_cases hij : i ≠ j
    · simp only [List.foldl_cons, if_pos hij]
      have hres := lagrange_inner_fold i x₀ xi xs js
        ((nd.1 * (x₀ - xs j)) % 257, (nd.2 * (xi - xs j)) % 257)
        (Int.emod_nonneg _ (by norm_num)) (Int.emod_lt_of_pos _ (by norm_num))
        (Int.emod_nonneg _ (by norm_num)) (Int.emod_lt_of_pos _ (by norm_num))
      refine ⟨hres.1, hres.2.1, hres.2.2.1, hres.2.2.2.1, ?_, ?_⟩
      · rw [hres.2.2.2.2.1]
        simp only [List.map_cons, List.prod_cons, if_pos hij]
        rw [intCast_emod_zmod]
        push_cast
        ring
      · rw [hres.2.2.2.2.2]
        simp only [List.map_cons, List.prod_cons, if_pos hij]
        rw [intCast_emod_zmod]
        push_cast
        ring
    · simp only [List.foldl_cons, if_neg hij]
      have hres := lagrange_inner_fold i x₀ xi xs js nd h1 h2 h3 h4
      refine ⟨hres.1, hres.2.1, hres.2.2.1, hres.2.2.2.1, ?_, ?_⟩
      · rw [hres.2.2.2.2.1]
        simp only [List.map_cons, List.prod_cons, if_neg hij]
        ring
      · rw [hres.2.2.2.2.2]
        simp only [List.map_cons, List.prod_cons, if_neg hij]
        ring

theorem prime257 : Nat.Prime 257 := by norm_num

instance : Fact (Nat.Prime 257) := ⟨prime257⟩

/-- The outer loop of `_lagrange_interpolation`: when every visited node has
an invertible denominator, the fold succeeds and accumulates the Lagrange
sum in `GF(257)`. -/
theorem lagrange_outer_fold (x₀ : ℤ) (q : List (Nat × Nat)) :
    ∀ (idxs : List Nat) (r : ℤ), 0 ≤ r → r < 257 →
    (∀ i ∈ idxs, dProd q q.length i ≠ 0) →
    ∃ r' : ℤ,
      (idxs.foldlM (fun (result : ℤ) (i : ℕ) =>
        let nd := ((List.range q.length).foldl (fun (nd : ℤ × ℤ) (j : ℕ) =>
          if i ≠ j then
            ((nd.1 * (x₀ - ((q.getD j (0, 0)).1 : ℤ))) % 257,
             (nd.2 * (((q.getD i (0, 0)).1 : ℤ) - ((q.getD j (0, 0)).1 : ℤ))) % 257)
          else nd) (1, 1))
        match ShamirSSS.mod_inverse nd.2.toNat 257 with
        | none => none
        | some dinv =>
          some ((result + ((q.getD i (0, 0)).2 : ℤ) * ((nd.1 * (dinv : ℤ)) % 257)) % 257)) r)
        = some r' ∧ 0 ≤ r' ∧ r' < 257 ∧
      (r' : ZMod 257) = (r : ZMod 257) +
        ((idxs.map (fun i => ptsY q i *
          ((nProd (x₀ : ZMod 257) q q.length i) * (dProd q q.length i)⁻¹))).sum)
  | [], r, h1, h2, _ => ⟨r, by simp, h1, h2, by simp⟩
  | i :: idxs, r, h1, h2, hden => by
    have hinner := lagrange_inner_fold i x₀ ((q.getD i (0, 0)).1 : ℤ)
      (fun j => ((q.getD j (0, 0)).1 : ℤ)) (List.range q.length) (1, 1)
      (by norm_num) (by norm_num) (by norm_num) (by norm_num)
    set nd := (List.range q.length).foldl (fun (nd : ℤ × ℤ) (j : ℕ) =>
      if i ≠ j then
        ((nd.1 * (x₀ - ((q.getD j (0, 0)).1 : ℤ))) % 257,
         (nd.2 * (((q.getD i (0, 0)).1 : ℤ) - ((q.getD j (0, 0)).1 : ℤ))) % 257)
      else nd) (1, 1) with hnd
    obtain ⟨hb1, hb2, hb3, hb4, hc1, hc2⟩ := hinner
    have hnum : (nd.1 : ZMod 257) = nProd (x₀ : ZMod 257) q q.length i := by
      rw [hc1]
      dsimp only
      rw [Int.cast_one, one_mul, nProd]
      rw [show (fun j => if i ≠ j then ((x₀ : ZMod 257) -
          ((((q.getD j (0, 0)).1 : ℕ) : ℤ) : ZMod 257)) else 1) =
        (fun j => if i ≠ j then ((x₀ : ZMod 257) - ptsX q j) else 1) by
          funext j
          rw [ptsX]
          push_cast
          rfl]
      exact guard_prod_erase (fun j => (x₀ : ZMod 257) - ptsX q j) q.length i
    have hdenv : (nd.2 : ZMod 257) = dProd q q.length i := by
      rw [hc2]
      dsimp only
      rw [Int.cast_one, one_mul, dProd]
      rw [show (fun j => if i ≠ j then (((((q.getD i (0, 0)).1 : ℕ) : ℤ) : ZMod 257) -
          ((((q.getD j (0, 0)).1 : ℕ) : ℤ) : ZMod 257)) else 1) =
        (fun j => if i ≠ j then (ptsX q i - ptsX q j) else 1) by
          funext j
          rw [ptsX, ptsX]
          push_cast
          rfl]
      exact guard_prod_erase (fun j => ptsX q i - ptsX q j) q.length i
    have hdnz : dProd q q.length i ≠ 0 := hden i (by simp)
    have hnd2nz : nd.2 ≠ 0 := by
      intro h0
      rw [h0] at hdenv
      exact hdnz (by simpa using hdenv.symm)
    have hpos : 0 < nd.2.toNat := by omega
    have hlt : nd.2.toNat < 257 := by omega
    have hgcd : Nat.gcd (nd.2.toNat % 257) 257 = 1 := by
      rw [Nat.mod_eq_of_lt hlt]
      have hnd : ¬ (257 ∣ nd.2.toNat) := by
        intro hdvd
        have := Nat.le_of_dvd hpos hdvd
        omega
      have := (Nat.Prime.coprime_iff_not_dvd prime257).mpr hnd
      exact Nat.Coprime.gcd_eq_one (Nat.Coprime.symm this)
    obtain ⟨u, hu, humul⟩ := mod_inverse_spec nd.2.toNat hgcd
    have hucast : (u : ZMod 257) = (dProd q q.length i)⁻¹ := by
      rw [toNat_cast_zmod nd.2 hb3, hdenv] at humul
      have h1 : (u : ZMod 257) * dProd q q.length i = 1 := humul
      exact eq_inv_of_mul_eq_one_left h1
    have hres := lagrange_outer_fold x₀ q idxs
      ((r + ((q.getD i (0, 0)).2 : ℤ) * ((nd.1 * (u : ℤ)) % 257)) % 257)
      (Int.emod_nonneg _ (by norm_num)) (Int.emod_lt_of_pos _ (by norm_num))
      (fun j hj => hden j (by simp [hj]))
    obtain ⟨r', hfold, hrb1, hrb2, hrc⟩ := hres
    refine ⟨r', ?_, hrb1, hrb2, ?_⟩
    · rw [List.foldlM_cons]
      simp only [← hnd, hu]
      exact hfold
    · rw [hrc, intCast_emod_zmod]
      push_cast
      rw [intCast_emod_zmod]
      push_cast
      rw [hnum, hucast, List.map_cons, List.sum_cons, ptsY]
      push_cast
      ring

/-- `_lagrange_interpolation` succeeds and computes the canonical
representative of the Lagrange sum whenever every node among the first `t`
has an invertible denominator. -/
theorem lagrange_interpolation_spec (t : Nat) (pts : List (Nat × Nat)) (x₀ : ℤ)
    (hlen : t ≤ pts.length)
    (hden : ∀ i ∈ List.range (pts.take t).length,
      dProd (pts.take t) (pts.take t).length i ≠ 0) :
    ShamirSSS.lagrange_interpolation t pts x₀ =
      some ((lagSum (x₀ : ZMod 257) (pts.take t) (pts.take t).length).val) := by
  rw [ShamirSSS.lagrange_interpolation, if_neg (by omega : ¬ pts.length < t)]
  have henum : (pts.take t).enum =
      (List.range (pts.take t).length).map (fun j => (j, (pts.take t).getD j (0, 0))) :=
    enum_eq_range_map _ _
  simp only [henum, List.foldlM_map, List.foldl_map, ShamirSSS.prime, Nat.cast_ofNat]
  obtain ⟨r', hfold, hb1, hb2, hc⟩ := lagrange_outer_fold x₀ (pts.take t)
    (List.range (pts.take t).length) 0 (by norm_num) (by norm_num) hden
  rw [hfold]
  simp only [Option.map_some']
  congr 1
  rw [Int.emod_eq_of_lt hb1 hb2]
  rw [Nat.mod_eq_of_lt (by omega : r'.toNat < 257)]
  have hcast : ((r'.toNat : ℕ) : ZMod 257) = lagSum (x₀ : ZMod 257) (pts.take t)
      (pts.take t).length := by
    rw [toNat_cast_zmod r' hb1, hc, list_range_sum]
    rw [lagSum]
    push_cast
    ring
  have := congrArg ZMod.val hcast
  rwa [ZMod.val_cast_of_lt (by omega : r'.toNat < 257)] at this

/-- The classical Lagrange evaluation identity over a field, in sum-product
form, derived from Mathlib's interpolation theory. -/
theorem lagrange_sum_identity {F : Type} [Field F] [DecidableEq F] (t : Nat)
    (v : Fin t → F) (hv : Function.Injective v) (f : Polynomial F)
    (hdeg : f.degree < (t : WithBot ℕ)) (x₀ : F) :
    f.eval x₀ = ∑ i : Fin t, f.eval (v i) *
      ∏ j ∈ Finset.univ.erase i, ((x₀ - v j) * (v i - v j)⁻¹) := by
  have hinj : Set.InjOn v ↑(Finset.univ : Finset (Fin t)) := fun a _ b _ h => hv h
  have heq := Lagrange.eq_interpolate hinj
    (by rw [Finset.card_univ, Fintype.card_fin]; exact hdeg)
  have hev := congrArg (Polynomial.eval x₀) heq
  rw [Lagrange.interpolate_apply, Polynomial.eval_finset_sum] at hev
  rw [hev]
  refine Finset.sum_congr rfl (fun i _ => ?_)
  rw [Polynomial.eval_mul, Polynomial.eval_C]
  congr 1
  rw [Lagrange.basis, Polynomial.eval_prod]
  refine Finset.prod_congr rfl (fun j hj => ?_)
  rw [Lagrange.basisDivisor, Polynomial.eval_mul, Polynomial.eval_C, Polynomial.eval_sub,
    Polynomial.eval_X, Polynomial.eval_C]
  ring

/-- Products over `(univ : Finset (Fin t)).erase i` transported to
`(Finset.range t).erase i.val`. -/
theorem prod_erase_fin_to_range {M : Type} [CommMonoid M] (t : Nat) (g : Nat → M)
    (i : Fin t) :
    (∏ j ∈ Finset.univ.erase i, g (j : Nat)) = ∏ j ∈ (Finset.range t).erase i.val, g j := by
  have h1 : (∏ j ∈ Finset.univ.erase i, g (j : Nat)) =
      ∏ j : Fin t, (if j = i then 1 else g (j : Nat)) := by
    rw [← Finset.prod_erase Finset.univ
      (f := fun j : Fin t => if j = i then 1 else g (j : Nat)) (a := i) (by simp)]
    refine Finset.prod_congr rfl (fun j hj => ?_)
    rw [if_neg (Finset.mem_erase.mp hj).1]
  have h2 : (∏ j ∈ (Finset.range t).erase i.val, g j) =
      ∏ j ∈ Finset.range t, (if j = i.val then 1 else g j) := by
    rw [← Finset.prod_erase (Finset.range t)
      (f := fun j => if j = i.val then 1 else g j) (a := i.val) (by simp)]
    refine Finset.prod_congr rfl (fun j hj => ?_)
    rw [if_neg (Finset.mem_erase.mp hj).1]
  rw [h1, h2, ← Fin.prod_univ_eq_prod_range (fun j => if j = i.val then 1 else g j) t]
  refine Finset.prod_congr rfl (fun j _ => ?_)
  by_cases hji : j = i
  · rw [if_pos hji, if_pos (by rw [hji])]
  · rw [if_neg hji, if_neg (by
      intro hval
      exact hji (Fin.ext hval))]

/-- When the first `t` nodes are distinct and the values on them come from a
polynomial of degree `< t` (given by its coefficient list), the Lagrange sum
at any point is that polynomial's value there. -/
theorem lagSum_eq_eval (x₀ : ZMod 257) (q : List (Nat × Nat)) (t : Nat)
    (ht : q.length = t)
    (hinj : ∀ i j, i < t → j < t → i ≠ j → ptsX q i ≠ ptsX q j)
    (coeffs : List Nat) (hdeg : coeffs.length ≤ t)
    (hval : ∀ i, i < t → ptsY q i = evalPolyZ coeffs (ptsX q i)) :
    lagSum x₀ q t = evalPolyZ coeffs x₀ := by
  have hvinj : Function.Injective (fun i : Fin t => ptsX q (i : Nat)) := by
    intro a b hab
    by_contra hne
    exact hinj a b a.isLt b.isLt (fun h => hne (Fin.ext h)) hab
  have hident := lagrange_sum_identity t (fun i : Fin t => ptsX q (i : Nat)) hvinj
    (∑ i ∈ Finset.range coeffs.length,
      Polynomial.C ((coeffs.getD i 0 : ℕ) : ZMod 257) * Polynomial.X ^ i)
    (lt_of_lt_of_le (coeffPoly_degree_lt coeffs) (by exact_mod_cast hdeg)) x₀
  rw [coeffPoly_eval] at hident
  rw [hident, lagSum]
  rw [← Fin.sum_univ_eq_sum_range (fun i =>
    ptsY q i * (nProd x₀ q t i * (dProd q t i)⁻¹)) t]
  refine Finset.sum_congr rfl (fun i _ => ?_)
  rw [coeffPoly_eval, ← hval i i.isLt]
  congr 1
  rw [Finset.prod_mul_distrib, Finset.prod_inv_distrib]
  have hn : (∏ j ∈ Finset.univ.erase i, (x₀ - ptsX q (j : Nat))) = nProd x₀ q t i.val := by
    rw [nProd]; exact prod_erase_fin_to_range t (fun j => x₀ - ptsX q j) i
  have hd : (∏ j ∈ Finset.univ.erase i, (ptsX q (i : Nat) - ptsX q (j : Nat))) =
      dProd q t i.val := by
    rw [dProd]; exact prod_erase_fin_to_range t (fun j => ptsX q i.val - ptsX q j) i
  rw [hn, hd]

/-- Evaluating the power sum at `0` yields the constant term. -/
theorem evalPolyZ_zero (coeffs : List Nat) :
    evalPolyZ coeffs (0 : ZMod 257) = ((coeffs.getD 0 0 : ℕ) : ZMod 257) := by
  rw [evalPolyZ]
  cases coeffs with
  | nil => simp
  | cons c rest =>
    rw [List.length_cons, Finset.sum_range_succ']
    simp [pow_succ]

/-- Distinct numbers in `[1, 257]` stay distinct in `GF(257)`. -/
theorem natCast_zmod257_ne (a b : Nat) (ha1 : 1 ≤ a) (ha2 : a ≤ 257)
    (hb1 : 1 ≤ b) (hb2 : b ≤ 257) (hne : a ≠ b) :
    (a : ZMod 257) ≠ (b : ZMod 257) := by
  intro hcast
  have hv := congrArg ZMod.val hcast
  rw [ZMod.val_natCast, ZMod.val_natCast] at hv
  omega

/-- A `filterMap` that hits `some` on every element is a `map`. -/
theorem filterMap_eq_map_of_some {α β : Type} (p : α → Option β) (f : α → β) :
    ∀ (l : List α), (∀ a ∈ l, p a = some (f a)) → l.filterMap p = l.map f
  | [], _ => rfl
  | a :: l, h => by
    rw [List.filterMap_cons, h a (List.mem_cons_self a l), List.map_cons,
      filterMap_eq_map_of_some p f l (fun b hb => h b (List.mem_cons_of_mem a hb))]

/-- Reading a list back off `getD` over its index range. -/
theorem map_range_getD {α : Type} (l : List α) (d : α) :
    (List.range l.length).map (fun b => l.getD b d) = l := by
  apply List.ext_getElem
  · simp
  · intro i h1 h2
    simp [List.getD_eq_getElem l d h2, List.getElem?_eq_getElem h2]

/-- A left fold of additions is the initial value plus the mapped sum. -/
theorem foldl_add_eq_sum {M : Type} [AddCommMonoid M] (h : Nat → M) :
    ∀ (l : List Nat) (a : M), l.foldl (fun acc j => acc + h j) a = a + (l.map h).sum
  | [], a => by simp
  | x :: l, a => by
    rw [List.foldl_cons, foldl_add_eq_sum h l (a + h x), List.map_cons, List.sum_cons,
      add_assoc]

/-- An effectful fold whose every step appends one computed element. -/
theorem foldlM_ok_append (g : List Nat → Nat → Except String (List Nat)) (f : Nat → Nat) :
    ∀ (l : List Nat), (∀ acc b, b ∈ l → g acc b = .ok (acc ++ [f b])) →
      ∀ acc, l.foldlM g acc = .ok (acc ++ l.map f)
  | [], _, acc => by simp [List.foldlM_nil]; rfl
  | x :: l, hg, acc => by
    rw [List.foldlM_cons, hg acc x (List.mem_cons_self x l)]
    show l.foldlM g (acc ++ [f x]) = _
    rw [foldlM_ok_append g f l (fun a b hb => hg a b (List.mem_cons_of_mem x hb))
      (acc ++ [f x])]
    simp

/-- Reconstruction of one byte on the small path: interpolating at `0` from
at least `k` genuine sample points of a polynomial with `k` coefficients
returns the constant term mod 257. -/
theorem lagrange_reconstruct_byte (k : Nat) (hk : 1 ≤ k) (xs : List Nat)
    (hnodup : xs.Nodup) (hlo : ∀ x ∈ xs, 1 ≤ x) (hhi : ∀ x ∈ xs, x ≤ 257)
    (hlen : k ≤ xs.length) (coeffs : List Nat) (hc : coeffs.length = k) :
    ShamirSSS.lagrange_interpolation k
      (xs.map (fun x => (x, ShamirSSS.polynomial_eval coeffs x))) 0 =
      some (coeffs.getD 0 0 % 257) := by
  have htake : (xs.map (fun x => (x, ShamirSSS.polynomial_eval coeffs x))).take k =
      (xs.take k).map (fun x => (x, ShamirSSS.polynomial_eval coeffs x)) :=
    (List.map_take (fun x => (x, ShamirSSS.polynomial_eval coeffs x)) xs k).symm
  have hxl : (xs.take k).length = k := by rw [List.length_take]; omega
  have hql : ((xs.take k).map (fun x => (x, ShamirSSS.polynomial_eval coeffs x))).length
      = k := by rw [List.length_map]; exact hxl
  have hxval : ∀ j, j < k →
      ((xs.take k).map (fun x => (x, ShamirSSS.polynomial_eval coeffs x))).getD j (0, 0)
        = ((xs.take k).getD j 0, ShamirSSS.polynomial_eval coeffs ((xs.take k).getD j 0)) := by
    intro j hj
    rw [List.getD_eq_getElem _ _ (by omega : j < ((xs.take k).map
        (fun x => (x, ShamirSSS.polynomial_eval coeffs x))).length),
      List.getD_eq_getElem _ _ (by omega : j < (xs.take k).length), List.getElem_map]
  have hmem : ∀ j, j < k → (xs.take k).getD j 0 ∈ xs := by
    intro j hj
    rw [List.getD_eq_getElem _ _ (by omega : j < (xs.take k).length)]
    exact List.mem_of_mem_take (List.getElem_mem _)
  have hnd : (xs.take k).Nodup := (List.take_sublist k xs).nodup hnodup
  have hxne : ∀ i j, i < k → j < k → i ≠ j →
      (xs.take k).getD i 0 ≠ (xs.take k).getD j 0 := by
    intro i j hi hj hij heq
    rw [List.getD_eq_getElem _ _ (by omega : i < (xs.take k).length),
      List.getD_eq_getElem _ _ (by omega : j < (xs.take k).length)] at heq
    have : (⟨i, by omega⟩ : Fin (xs.take k).length) = ⟨j, by omega⟩ :=
      hnd.get_inj_iff.mp heq
    exact hij (congrArg Fin.val this)
  have hinj : ∀ i j, i < k → j < k → i ≠ j →
      ptsX ((xs.take k).map (fun x => (x, ShamirSSS.polynomial_eval coeffs x))) i ≠
      ptsX ((xs.take k).map (fun x => (x, ShamirSSS.polynomial_eval coeffs x))) j := by
    intro i j hi hj hij
    rw [ptsX, ptsX, hxval i hi, hxval j hj]
    exact natCast_zmod257_ne _ _ (hlo _ (hmem i hi)) (hhi _ (hmem i hi))
      (hlo _ (hmem j hj)) (hhi _ (hmem j hj)) (hxne i j hi hj hij)
  have hyval : ∀ i, i < k →
      ptsY ((xs.take k).map (fun x => (x, ShamirSSS.polynomial_eval coeffs x))) i =
      evalPolyZ coeffs
        (ptsX ((xs.take k).map (fun x => (x, ShamirSSS.polynomial_eval coeffs x))) i) := by
    intro i hi
    rw [ptsY, ptsX, hxval i hi]
    exact polynomial_eval_cast coeffs _
  have hden : ∀ i ∈ List.range
      (((xs.map (fun x => (x, ShamirSSS.polynomial_eval coeffs x))).take k).length),
      dProd ((xs.map (fun x => (x, ShamirSSS.polynomial_eval coeffs x))).take k)
        ((xs.map (fun x => (x, ShamirSSS.polynomial_eval coeffs x))).take k).length i ≠ 0 := by
    rw [htake, hql]
    intro i hi
    have hik : i < k := List.mem_range.mp hi
    rw [dProd]
    apply Finset.prod_ne_zero_iff.mpr
    intro j hj
    obtain ⟨hji, hjr⟩ := Finset.mem_erase.mp hj
    exact sub_ne_zero.mpr (hinj i j hik (List.mem_range.mp hjr) (Ne.symm hji))
  rw [lagrange_interpolation_spec k _ 0 (by rw [List.length_map]; exact hlen) hden,
    htake, hql,
    lagSum_eq_eval _ _ k hql hinj coeffs (le_of_eq hc) hyval,
    Int.cast_zero, evalPolyZ_zero, ZMod.val_natCast]

/-- `reconstruct_secret` on the small path succeeds once every byte position
clears the per-byte availability, interpolation and range checks. -/
theorem shamir_reconstruct_ok (k : Nat) (first : List (Nat × Nat))
    (rest : List (List (Nat × Nat))) (hlen : k ≤ (first :: rest).length)
    (out : List Nat) (hout : out.length = first.length)
    (hbyte : ∀ b, b < first.length →
      k ≤ ((first :: rest).filterMap (fun share => share[b]?)).length ∧
      ShamirSSS.lagrange_interpolation k
        ((first :: rest).filterMap (fun share => share[b]?)) 0 =
        some (out.getD b 0) ∧ out.getD b 0 < 256) :
    ShamirSSS.reconstruct_secret k (first :: rest) = .ok out := by
  rw [ShamirSSS.reconstruct_secret, if_neg (Nat.not_lt.mpr hlen)]
  show (List.range first.length).foldlM (fun acc byte_idx =>
      let byte_shares := (first :: rest).filterMap (fun share => share[byte_idx]?)
      if byte_shares.length ≥ k then
        match ShamirSSS.lagrange_interpolation k byte_shares 0 with
        | some b => if b < 256 then Except.ok (acc ++ [b])
                    else Except.error "byte must be in range"
        | none => Except.error "ValueError"
      else Except.ok acc) ([] : List Nat) = Except.ok out
  have hsteps : ∀ acc b, b ∈ List.range first.length →
      (fun acc byte_idx =>
        let byte_shares := (first :: rest).filterMap (fun share => share[byte_idx]?)
        if byte_shares.length ≥ k then
          match ShamirSSS.lagrange_interpolation k byte_shares 0 with
          | some b => if b < 256 then Except.ok (acc ++ [b])
                      else Except.error "byte must be in range"
          | none => Except.error "ValueError"
        else Except.ok acc) acc b = Except.ok (acc ++ [out.getD b 0]) := by
    intro acc b hb
    obtain ⟨h1, h2, h3⟩ := hbyte b (List.mem_range.mp hb)
    show (if ((first :: rest).filterMap (fun share => share[b]?)).length ≥ k then
        match ShamirSSS.lagrange_interpolation k
          ((first :: rest).filterMap (fun share => share[b]?)) 0 with
        | some v => if v < 256 then Except.ok (acc ++ [v])
                    else Except.error "byte must be in range"
        | none => Except.error "ValueError"
      else Except.ok acc) = Except.ok (acc ++ [out.getD b 0])
    rw [if_pos (show _ ≥ k from h1), h2]
    show (if out.getD b 0 < 256 then Except.ok (acc ++ [out.getD b 0])
      else Except.error "byte must be in range") = _
    rw [if_pos h3]
  rw [foldlM_ok_append _ _ _ hsteps ([] : List Nat), List.nil_append, ← hout,
    map_range_getD]

/-- The `i`-th small-path share in closed form: byte position `b` carries
`(i+1, f_b(i+1))`. -/
def smallShare (k : Nat) (tape : Nat → Nat → Nat) (secret : List Nat) (i : Nat) :
    List (Nat × Nat) :=
  (List.range secret.length).map (fun b =>
    (i + 1, ShamirSSS.polynomial_eval
      (secret.getD b 0 :: (List.range (k - 1)).map (tape b)) (i + 1)))

theorem smallShare_length (k : Nat) (tape : Nat → Nat → Nat) (secret : List Nat)
    (i : Nat) : (smallShare k tape secret i).length = secret.length := by
  rw [smallShare, List.length_map, List.length_range]

theorem smallShare_getD (k : Nat) (tape : Nat → Nat → Nat) (secret : List Nat)
    (i b : Nat) (hb : b < secret.length) :
    (smallShare k tape secret i).getD b (0, 0) =
      (i + 1, ShamirSSS.polynomial_eval
        (secret.getD b 0 :: (List.range (k - 1)).map (tape b)) (i + 1)) := by
  rw [smallShare,
    List.getD_eq_getElem _ _ (by rw [List.length_map, List.length_range]; exact hb),
    List.getElem_map, List.getElem_range]

/-- `split_secret`'s `i`-th share is `smallShare i`. -/
theorem split_secret_getD (k n : Nat) (tape : Nat → Nat → Nat) (secret : List Nat)
    (i : Nat) (hi : i < n) :
    (ShamirSSS.split_secret k n tape secret).getD i [] = smallShare k tape secret i := by
  rw [ShamirSSS.split_secret,
    List.getD_eq_getElem _ _ (by rw [List.length_map, List.length_range]; exact hi),
    List.getElem_map, List.getElem_range, enum_eq_range_map secret 0, List.map_map,
    smallShare]
  rfl

/-- The per-byte sample list assembled by `reconstruct_secret` from a
selection of small-path shares. -/
theorem small_byte_shares (k : Nat) (tape : Nat → Nat → Nat) (secret : List Nat)
    (l : List Nat) (b : Nat) (hb : b < secret.length) :
    (l.map (smallShare k tape secret)).filterMap (fun share => share[b]?) =
      (l.map (fun i => i + 1)).map (fun x => (x, ShamirSSS.polynomial_eval
        (secret.getD b 0 :: (List.range (k - 1)).map (tape b)) x)) := by
  rw [filterMap_eq_map_of_some _ (fun share => share.getD b (0, 0)) _ ?hs, List.map_map,
    List.map_map]
  · apply List.map_congr_left
    intro i hi
    simp only [Function.comp_apply]
    rw [smallShare_getD k tape secret i b hb]
  case hs =>
    intro a ha
    obtain ⟨i, hi, rfl⟩ := List.mem_map.mp ha
    show (smallShare k tape secret i)[b]? =
      some ((smallShare k tape secret i).getD b (0, 0))
    rw [List.getElem?_eq_getElem (by rw [smallShare_length]; exact hb),
      List.getD_eq_getElem _ _ (by rw [smallShare_length]; exact hb)]

/-- The small-path round trip: reconstruction from any `k` distinct shares
produced by `split_secret` returns the original byte string (the share
x-values `i+1` stay distinct in `GF(257)` for `n ≤ 257`). -/
theorem shamir_small_roundtrip (k n : Nat) (hk : 1 ≤ k) (hkn : k ≤ n) (hn : n ≤ 257)
    (tape : Nat → Nat → Nat) (secret : List Nat) (hsec : ∀ b ∈ secret, b < 256)
    (sel : List Nat) (hnodup : sel.Nodup) (hlt : ∀ i ∈ sel, i < n)
    (hlen : k ≤ sel.length) :
    ShamirSSS.reconstruct_secret k
      (sel.map (fun i => (ShamirSSS.split_secret k n tape secret).getD i [])) =
      .ok secret := by
  rw [List.map_congr_left (fun i hi => split_secret_getD k n tape secret i (hlt i hi))]
  obtain ⟨s0, sel', rfl⟩ : ∃ s0 sel', sel = s0 :: sel' := by
    cases sel with
    | nil => exact absurd hlen (by simp; omega)
    | cons a l => exact ⟨a, l, rfl⟩
  rw [List.map_cons]
  apply shamir_reconstruct_ok
  · simp only [List.length_cons, List.length_map]
    simp only [List.length_cons] at hlen
    exact hlen
  · rw [smallShare_length]
  · intro b hb
    rw [smallShare_length] at hb
    have hmem : secret.getD b 0 ∈ secret := by
      rw [List.getD_eq_getElem _ _ hb]; exact List.getElem_mem _
    have hlt256 : secret.getD b 0 < 256 := hsec _ hmem
    have hxnd : ((s0 :: sel').map (fun i => i + 1)).Nodup :=
      List.Nodup.map (fun a b h => by omega) hnodup
    have hlo : ∀ x ∈ (s0 :: sel').map (fun i => i + 1), 1 ≤ x := by
      intro x hx; obtain ⟨i, _, rfl⟩ := List.mem_map.mp hx; omega
    have hhi2 : ∀ x ∈ (s0 :: sel').map (fun i => i + 1), x ≤ 257 := by
      intro x hx; obtain ⟨i, hi, rfl⟩ := List.mem_map.mp hx
      have := hlt i hi; omega
    have hlen2 : k ≤ ((s0 :: sel').map (fun i => i + 1)).length := by
      rw [List.length_map]; exact hlen
    have hcb : (secret.getD b 0 :: (List.range (k - 1)).map (tape b)).length = k := by
      simp only [List.length_cons, List.length_map, List.length_range]; omega
    rw [← List.map_cons (smallShare k tape secret) s0 sel',
      small_byte_shares k tape secret (s0 :: sel') b hb]
    refine ⟨?_, ?_, hlt256⟩
    · rw [List.length_map, List.length_map]
      exact hlen
    · rw [lagrange_reconstruct_byte k hk _ hxnd hlo hhi2 hlen2 _ hcb,
        List.getD_cons_zero, Nat.mod_eq_of_lt (by omega)]

/-- The integer numerator product in the optimized Lagrange coefficient. -/
def numProd (t i : Nat) : ℤ := ∏ j ∈ (Finset.range t).erase i, (0 - ((j : ℤ) + 1))

/-- The integer denominator product in the optimized Lagrange coefficient. -/
def denProd (t i : Nat) : ℤ :=
  ∏ j ∈ (Finset.range t).erase i, (((i : ℤ) + 1) - ((j : ℤ) + 1))

theorem lagrange_fold_prods (i : Nat) :
    ∀ (l : List Nat) (a b : ℤ),
      l.foldl (fun (nd : ℤ × ℤ) j =>
        if i ≠ j then
          (nd.1 * (0 - ((j : ℤ) + 1)), nd.2 * (((i : ℤ) + 1) - ((j : ℤ) + 1)))
        else nd) (a, b) =
      (a * (l.map (fun j => if i ≠ j then (0 - ((j : ℤ) + 1)) else 1)).prod,
       b * (l.map (fun j => if i ≠ j then (((i : ℤ) + 1) - ((j : ℤ) + 1)) else 1)).prod)
  | [], a, b => by simp
  | x :: l, a, b => by
    rw [List.foldl_cons]
    show List.foldl _ (if i ≠ x then
        (a * (0 - ((x : ℤ) + 1)), b * (((i : ℤ) + 1) - ((x : ℤ) + 1))) else (a, b)) l = _
    by_cases hx : i ≠ x
    · rw [if_pos hx,
        lagrange_fold_prods i l (a * (0 - ((x : ℤ) + 1))) (b * (((i : ℤ) + 1) - ((x : ℤ) + 1)))]
      simp [hx, mul_assoc]
    · rw [if_neg hx, lagrange_fold_prods i l a b]
      simp [not_ne_iff.mp hx]

theorem range_if_prod_erase (f : Nat → ℤ) (t i : Nat) :
    ((List.range t).map (fun j => if i ≠ j then f j else 1)).prod =
      ∏ j ∈ (Finset.range t).erase i, f j := by
  rw [list_range_prod]
  have h2 : (∏ j ∈ (Finset.range t).erase i, f j) =
      ∏ j ∈ Finset.range t, (if j = i then 1 else f j) := by
    rw [← Finset.prod_erase (Finset.range t)
      (f := fun j => if j = i then 1 else f j) (a := i) (by simp)]
    refine Finset.prod_congr rfl (fun j hj => ?_)
    rw [if_neg (Finset.mem_erase.mp hj).1]
  rw [h2]
  refine Finset.prod_congr rfl (fun j _ => ?_)
  by_cases hji : j = i
  · rw [if_pos hji, if_neg (by omega : ¬ i ≠ j)]
  · rw [if_neg hji, if_pos (by omega : i ≠ j)]

/-- The optimized Lagrange coefficient is the floor quotient of the two node
products. -/
theorem lagrange_coeff_prods (t i : Nat) :
    OptSSS.lagrange_coeff t i = Int.fdiv (numProd t i) (denProd t i) := by
  rw [OptSSS.lagrange_coeff]
  show Int.fdiv ((List.range t).foldl (fun (nd : ℤ × ℤ) j =>
      if i ≠ j then
        (nd.1 * (0 - ((j : ℤ) + 1)), nd.2 * (((i : ℤ) + 1) - ((j : ℤ) + 1)))
      else nd) (1, 1)).1 ((List.range t).foldl (fun (nd : ℤ × ℤ) j =>
      if i ≠ j then
        (nd.1 * (0 - ((j : ℤ) + 1)), nd.2 * (((i : ℤ) + 1) - ((j : ℤ) + 1)))
      else nd) (1, 1)).2 = Int.fdiv (numProd t i) (denProd t i)
  rw [lagrange_fold_prods i (List.range t) 1 1]
  rw [numProd, denProd, ← range_if_prod_erase, ← range_if_prod_erase]
  simp only [one_mul]

theorem prod_range_succ_factorial :
    ∀ t : Nat, (∏ j ∈ Finset.range t, ((j : ℤ) + 1)) = (t.factorial : ℤ)
  | 0 => by simp
  | t + 1 => by
    rw [Finset.prod_range_succ, prod_range_succ_factorial t, Nat.factorial_succ]
    push_cast
    ring

theorem numProd_mul (t i : Nat) (hi : i < t) :
    ((i : ℤ) + 1) * numProd t i = (-1) ^ (t - 1) * (t.factorial : ℤ) := by
  have h := Finset.mul_prod_erase (Finset.range t) (fun j => (0 - ((j : ℤ) + 1)))
    (Finset.mem_range.mpr hi)
  have hfull : (∏ j ∈ Finset.range t, (0 - ((j : ℤ) + 1))) =
      (-1) ^ t * (t.factorial : ℤ) := by
    have hstep : ∀ j ∈ Finset.range t, (0 - ((j : ℤ) + 1)) = (-1) * ((j : ℤ) + 1) :=
      fun j _ => by ring
    rw [Finset.prod_congr rfl hstep, Finset.prod_mul_distrib, Finset.prod_const,
      Finset.card_range, prod_range_succ_factorial]
  have h2 : ((i : ℤ) + 1) * numProd t i = -((-1) ^ t * (t.factorial : ℤ)) := by
    rw [numProd, ← hfull, ← h]
    ring
  rw [h2]
  obtain ⟨s, rfl⟩ : ∃ s, t = s + 1 := ⟨t - 1, by omega⟩
  rw [Nat.add_sub_cancel, pow_succ]
  ring

theorem denProd_eq (t i : Nat) (hi : i < t) :
    denProd t i = (i.factorial : ℤ) * (-1) ^ (t - 1 - i) * ((t - 1 - i).factorial : ℤ) := by
  rw [denProd]
  have hsplit : (Finset.range t).erase i = Finset.range i ∪ Finset.Ico (i + 1) t := by
    ext j
    simp only [Finset.mem_erase, Finset.mem_range, Finset.mem_union, Finset.mem_Ico]
    omega
  rw [hsplit, Finset.prod_union (by
    rw [Finset.disjoint_left]
    intro a ha hb
    have h1 := Finset.mem_range.mp ha
    have h2 := (Finset.mem_Ico.mp hb).1
    omega)]
  have hP1 : (∏ j ∈ Finset.range i, (((i : ℤ) + 1) - ((j : ℤ) + 1))) =
      (i.factorial : ℤ) := by
    rw [← Finset.prod_range_reflect, ← prod_range_succ_factorial i]
    refine Finset.prod_congr rfl (fun j hj => ?_)
    have hji : j < i := Finset.mem_range.mp hj
    omega
  have hP2 : (∏ j ∈ Finset.Ico (i + 1) t, (((i : ℤ) + 1) - ((j : ℤ) + 1))) =
      (-1) ^ (t - 1 - i) * ((t - 1 - i).factorial : ℤ) := by
    rw [Finset.prod_Ico_eq_prod_range, show t - (i + 1) = t - 1 - i by omega]
    have hstep : ∀ j ∈ Finset.range (t - 1 - i),
        (((i : ℤ) + 1) - (((i + 1 + j : ℕ) : ℤ) + 1)) = (-1) * ((j : ℤ) + 1) :=
      fun j _ => by push_cast; ring
    rw [Finset.prod_congr rfl hstep, Finset.prod_mul_distrib, Finset.prod_const,
      Finset.card_range, prod_range_succ_factorial]
  rw [hP1, hP2]
  ring

theorem denProd_ne_zero (t i : Nat) (hi : i < t) : denProd t i ≠ 0 := by
  rw [denProd_eq t i hi]
  exact mul_ne_zero (mul_ne_zero (Int.natCast_ne_zero.mpr i.factorial_ne_zero)
    (pow_ne_zero _ (by norm_num))) (Int.natCast_ne_zero.mpr (t - 1 - i).factorial_ne_zero)

/-- Integrality of the optimized Lagrange coefficient: the numerator product
is the signed binomial multiple of the denominator product. -/
theorem numProd_eq_coeff_mul_denProd (t i : Nat) (hi : i < t) :
    numProd t i = ((-1) ^ i * (t.choose (i + 1) : ℤ)) * denProd t i := by
  refine mul_left_cancel₀ (show ((i : ℤ) + 1) ≠ 0 by omega) ?_
  rw [numProd_mul t i hi, denProd_eq t i hi]
  have hch := Nat.choose_mul_factorial_mul_factorial (show i + 1 ≤ t by omega)
  have hch' : ((t.choose (i + 1) : ℤ)) * (((i + 1).factorial : ℕ) : ℤ) *
      (((t - (i + 1)).factorial : ℕ) : ℤ) = (t.factorial : ℤ) := by
    exact_mod_cast hch
  have hfs : (((i + 1).factorial : ℕ) : ℤ) = ((i : ℤ) + 1) * (i.factorial : ℤ) := by
    rw [Nat.factorial_succ]
    push_cast
    ring
  have hsub : t - (i + 1) = t - 1 - i := by omega
  have hsign : ((-1 : ℤ)) ^ i * (-1 : ℤ) ^ (t - 1 - i) = (-1) ^ (t - 1) := by
    rw [← pow_add]
    congr 1
    omega
  calc (-1 : ℤ) ^ (t - 1) * (t.factorial : ℤ)
      = (-1) ^ (t - 1) * ((t.choose (i + 1) : ℤ) * (((i : ℤ) + 1) * (i.factorial : ℤ)) *
        ((t - 1 - i).factorial : ℤ)) := by
        rw [← hch', hfs, hsub]
    _ = ((i : ℤ) + 1) * ((-1) ^ i * (t.choose (i + 1) : ℤ) *
        ((i.factorial : ℤ) * (-1) ^ (t - 1 - i) * ((t - 1 - i).factorial : ℤ))) := by
        rw [← hsign]
        ring

/-- The optimized Lagrange coefficient at node `i+1` is `(-1)^i C(t, i+1)`. -/
theorem lagrange_coeff_eq (t i : Nat) (hi : i < t) :
    OptSSS.lagrange_coeff t i = (-1) ^ i * (t.choose (i + 1) : ℤ) := by
  rw [lagrange_coeff_prods, numProd_eq_coeff_mul_denProd t i hi,
    Int.mul_fdiv_cancel _ (denProd_ne_zero t i hi)]

theorem coeffPolyQ_degree_lt (coeffs : List Nat) :
    (∑ i ∈ Finset.range coeffs.length,
      Polynomial.C ((coeffs.getD i 0 : ℕ) : ℚ) * Polynomial.X ^ i).degree <
      (coeffs.length : WithBot ℕ) := by
  apply lt_of_le_of_lt (Polynomial.degree_sum_le _ _)
  rw [Finset.sup_lt_iff (WithBot.bot_lt_coe _)]
  intro i hi
  exact lt_of_le_of_lt (Polynomial.degree_C_mul_X_pow_le _ _)
    (by exact_mod_cast List.mem_range.mp hi)

theorem coeffPolyQ_eval (coeffs : List Nat) (x : ℚ) :
    (∑ i ∈ Finset.range coeffs.length,
      Polynomial.C ((coeffs.getD i 0 : ℕ) : ℚ) * Polynomial.X ^ i).eval x =
      ∑ i ∈ Finset.range coeffs.length, ((coeffs.getD i 0 : ℕ) : ℚ) * x ^ i := by
  rw [Polynomial.eval_finset_sum]
  simp

/-- The exact integer value of the optimized split polynomial. -/
def evalPolyInt (coeffs : List Nat) (x : ℤ) : ℤ :=
  ∑ i ∈ Finset.range coeffs.length, ((coeffs.getD i 0 : ℕ) : ℤ) * x ^ i

theorem evalPolyInt_cast_q (coeffs : List Nat) (z : ℤ) :
    ((evalPolyInt coeffs z : ℤ) : ℚ) =
      ∑ i ∈ Finset.range coeffs.length, ((coeffs.getD i 0 : ℕ) : ℚ) * ((z : ℚ)) ^ i := by
  rw [evalPolyInt]
  push_cast
  rfl

/-- The exact integer Lagrange combination of polynomial values at the nodes
`1, …, t` with the optimized coefficients recovers the constant term. -/
theorem int_lagrange_at_zero (t : Nat) (coeffs : List Nat) (hc : coeffs.length ≤ t) :
    (∑ i ∈ Finset.range t,
      evalPolyInt coeffs ((i : ℤ) + 1) * OptSSS.lagrange_coeff t i) =
      ((coeffs.getD 0 0 : ℕ) : ℤ) := by
  have hv : Function.Injective (fun i : Fin t => ((i : ℕ) : ℚ) + 1) := by
    intro a b hab
    simp only at hab
    have hnat : ((a : ℕ) : ℚ) = ((b : ℕ) : ℚ) := by linarith
    exact Fin.ext (by exact_mod_cast hnat)
  have hident := lagrange_sum_identity t (fun i : Fin t => ((i : ℕ) : ℚ) + 1) hv
    (∑ i ∈ Finset.range coeffs.length,
      Polynomial.C ((coeffs.getD i 0 : ℕ) : ℚ) * Polynomial.X ^ i)
    (lt_of_lt_of_le (coeffPolyQ_degree_lt coeffs) (by exact_mod_cast hc)) 0
  have hident' : (∑ k ∈ Finset.range coeffs.length,
      Polynomial.C ((coeffs.getD k 0 : ℕ) : ℚ) * Polynomial.X ^ k).eval 0 =
      ∑ i : Fin t, (∑ k ∈ Finset.range coeffs.length,
        Polynomial.C ((coeffs.getD k 0 : ℕ) : ℚ) * Polynomial.X ^ k).eval
          (((i : ℕ) : ℚ) + 1) *
        ∏ j ∈ Finset.univ.erase i, ((0 - (((j : ℕ) : ℚ) + 1)) *
          ((((i : ℕ) : ℚ) + 1) - (((j : ℕ) : ℚ) + 1))⁻¹) := hident
  have hterm : ∀ i : Fin t,
      (∑ k ∈ Finset.range coeffs.length,
        Polynomial.C ((coeffs.getD k 0 : ℕ) : ℚ) * Polynomial.X ^ k).eval
          (((i : ℕ) : ℚ) + 1) *
        ∏ j ∈ Finset.univ.erase i, ((0 - (((j : ℕ) : ℚ) + 1)) *
          ((((i : ℕ) : ℚ) + 1) - (((j : ℕ) : ℚ) + 1))⁻¹) =
      ((evalPolyInt coeffs ((i : ℤ) + 1) * OptSSS.lagrange_coeff t (i : ℕ) : ℤ) : ℚ) := by
    intro i
    have hn : (∏ j ∈ Finset.univ.erase i, (0 - (((j : ℕ) : ℚ) + 1))) =
        ((numProd t (i : ℕ) : ℤ) : ℚ) := by
      rw [prod_erase_fin_to_range t (fun j => 0 - ((j : ℚ) + 1)) i, numProd]
      push_cast
      rfl
    have hd : (∏ j ∈ Finset.univ.erase i,
        ((((i : ℕ) : ℚ) + 1) - (((j : ℕ) : ℚ) + 1))) =
        ((denProd t (i : ℕ) : ℤ) : ℚ) := by
      rw [prod_erase_fin_to_range t (fun j => (((i : ℕ) : ℚ) + 1) - ((j : ℚ) + 1)) i,
        denProd]
      push_cast
      rfl
    have hprod : (∏ j ∈ Finset.univ.erase i, ((0 - (((j : ℕ) : ℚ) + 1)) *
        ((((i : ℕ) : ℚ) + 1) - (((j : ℕ) : ℚ) + 1))⁻¹)) =
        ((OptSSS.lagrange_coeff t (i : ℕ) : ℤ) : ℚ) := by
      rw [Finset.prod_mul_distrib, Finset.prod_inv_distrib, hn, hd,
        numProd_eq_coeff_mul_denProd t (i : ℕ) i.isLt]
      rw [lagrange_coeff_eq t (i : ℕ) i.isLt]
      push_cast
      rw [mul_assoc, mul_inv_cancel₀
        (by exact_mod_cast denProd_ne_zero t (i : ℕ) i.isLt), mul_one]
    rw [hprod, coeffPolyQ_eval,
      show (((i : ℕ) : ℚ) + 1) = (((i : ℤ) + 1 : ℤ) : ℚ) by push_cast; ring,
      ← evalPolyInt_cast_q, Int.cast_mul]
  have hq : (∑ i ∈ Finset.range t,
      ((evalPolyInt coeffs ((i : ℤ) + 1) * OptSSS.lagrange_coeff t i : ℤ) : ℚ)) =
      ((coeffs.getD 0 0 : ℕ) : ℚ) := by
    rw [← Fin.sum_univ_eq_sum_range (fun i =>
      ((evalPolyInt coeffs ((i : ℤ) + 1) * OptSSS.lagrange_coeff t i : ℤ) : ℚ)) t]
    rw [Finset.sum_congr rfl (fun i _ => (hterm i).symm), ← hident', coeffPolyQ_eval]
    cases coeffs with
    | nil => simp
    | cons c rest =>
      rw [List.length_cons, Finset.sum_range_succ']
      simp [pow_succ]
  exact_mod_cast hq

/-- The `i`-th optimized-path share in closed form. -/
def optShare (t : Nat) (tape : Nat → Nat → Nat) (secret : List Nat) (i : Nat) :
    List Nat :=
  (List.range secret.length).map (fun b =>
    OptSSS.split_byte t (tape b) (secret.getD b 0) ((i + 1) % 256))

theorem optShare_length (t : Nat) (tape : Nat → Nat → Nat) (secret : List Nat)
    (i : Nat) : (optShare t tape secret i).length = secret.length := by
  rw [optShare, List.length_map, List.length_range]

theorem optShare_getD (t : Nat) (tape : Nat → Nat → Nat) (secret : List Nat)
    (i b : Nat) (hb : b < secret.length) :
    (optShare t tape secret i).getD b 0 =
      OptSSS.split_byte t (tape b) (secret.getD b 0) ((i + 1) % 256) := by
  rw [optShare,
    List.getD_eq_getElem _ _ (by rw [List.length_map, List.length_range]; exact hb),
    List.getElem_map, List.getElem_range]

/-- `OptimizedShamirSecretSharing.split_secret` in closed per-share form. -/
theorem opt_split_eq (t n : Nat) (tape : Nat → Nat → Nat) (secret : List Nat) :
    OptSSS.split_secret t n tape secret = (List.range n).map (optShare t tape secret) := by
  rw [OptSSS.split_secret]
  apply List.map_congr_left
  intro i hi
  rw [enum_eq_range_map secret 0, List.map_map, optShare]
  rfl

theorem opt_split_take (t n : Nat) (htn : t ≤ n) (tape : Nat → Nat → Nat)
    (secret : List Nat) :
    (OptSSS.split_secret t n tape secret).take t =
      (List.range t).map (optShare t tape secret) := by
  rw [opt_split_eq, ← List.map_take, List.take_range, min_eq_left htn]

theorem enum_map_range {α : Type} (F : Nat → α) (d : α) (t : Nat) :
    ((List.range t).map F).enum = (List.range t).map (fun j => (j, F j)) := by
  rw [enum_eq_range_map _ d, List.length_map, List.length_range]
  apply List.map_congr_left
  intro j hj
  have hjt : j < t := List.mem_range.mp hj
  rw [List.getD_eq_getElem _ _ (by rw [List.length_map, List.length_range]; exact hjt),
    List.getElem_map, List.getElem_range]

/-- An optimized share byte is the exact polynomial value reduced mod 256. -/
theorem split_byte_eq (t : Nat) (cf : Nat → Nat) (s x : Nat) :
    ((OptSSS.split_byte t cf s x : ℕ) : ℤ) =
      (evalPolyInt (s :: (List.range (t - 1)).map cf) ((x : ℕ) : ℤ)) % 256 := by
  have hev : evalPolyInt (s :: (List.range (t - 1)).map cf) ((x : ℕ) : ℤ) =
      (s : ℤ) + ∑ p ∈ Finset.range (t - 1), ((cf p : ℕ) : ℤ) * ((x : ℕ) : ℤ) ^ (p + 1) := by
    rw [evalPolyInt, List.length_cons, List.length_map, List.length_range,
      Finset.sum_range_succ']
    simp only [List.getD_cons_zero, List.getD_cons_succ, pow_zero, mul_one]
    rw [add_comm]
    congr 1
    refine Finset.sum_congr rfl (fun p hp => ?_)
    rw [List.getD_eq_getElem _ _
        (by rw [List.length_map, List.length_range]; exact Finset.mem_range.mp hp),
      List.getElem_map, List.getElem_range]
  rw [OptSSS.split_byte,
    foldl_add_eq_sum (fun p => cf p * x ^ (p + 1)) (List.range (t - 1)) s,
    list_range_sum (fun p => cf p * x ^ (p + 1)) (t - 1), hev]
  push_cast
  rfl

theorem sum_mul_emod_congr (s : Finset ℕ) (f g h : ℕ → ℤ)
    (hfg : ∀ j ∈ s, f j % 256 = g j % 256) :
    (∑ j ∈ s, f j * h j) % 256 = (∑ j ∈ s, g j * h j) % 256 := by
  rw [Finset.sum_int_mod]
  have hcong : ∀ j ∈ s, (f j * h j) % 256 = (g j * h j) % 256 := by
    intro j hj
    rw [Int.mul_emod, hfg j hj, ← Int.mul_emod]
  rw [Finset.sum_congr rfl hcong, ← Finset.sum_int_mod]

/-- `OptimizedShamirSecretSharing.reconstruct_secret` succeeds once the shape
guard holds and every byte position evaluates as required. -/
theorem opt_reconstruct_ok (t : Nat) (first : List Nat) (rest : List (List Nat))
    (shares : List (List Nat)) (hlen : ¬ shares.length < t)
    (htake : shares.take t = first :: rest)
    (hall : ((first :: rest).all (fun a => a.length = first.length)) = true)
    (out : List Nat) (hout : out.length = first.length)
    (hbyte : ∀ b, b < first.length →
      (((((first :: rest).enum.foldl (fun (acc : Int) (ip : Nat × List Nat) =>
        acc + ((ip.2.getD b 0 : Nat) : Int) * OptSSS.lagrange_coeff t ip.1) 0)
        % 65536) % 256)).toNat = out.getD b 0) :
    OptSSS.reconstruct_secret t shares = .ok out := by
  rw [OptSSS.reconstruct_secret, if_neg hlen, htake]
  show (if (first :: rest).all (fun a => a.length = first.length) then
      Except.ok ((List.range first.length).map (fun b =>
        (((((first :: rest).enum.foldl
          (fun (acc : Int) (ip : Nat × List Nat) =>
            acc + ((ip.2.getD b 0 : Nat) : Int) * OptSSS.lagrange_coeff t ip.1)
          0) % 65536) % 256)).toNat))
    else Except.error "operands could not be broadcast together") = Except.ok out
  rw [if_pos hall]
  congr 1
  apply List.ext_getElem
  · rw [List.length_map, List.length_range, hout]
  · intro b h1 h2
    have hb : b < first.length := by
      rw [List.length_map, List.length_range] at h1
      exact h1
    have hstep := hbyte b hb
    rw [List.getD_eq_getElem _ _ h2] at hstep
    simp only [List.getElem_map, List.getElem_range]
    exact hstep

/-- The optimized-path round trip: reconstruction from the first `t` shares,
in order, returns the original byte string. -/
theorem optimized_firstk_roundtrip (t n : Nat) (ht : 1 ≤ t) (htn : t ≤ n)
    (ht255 : t ≤ 255) (tape : Nat → Nat → Nat) (secret : List Nat)
    (hsec : ∀ b ∈ secret, b < 256) :
    OptSSS.reconstruct_secret t ((OptSSS.split_secret t n tape secret).take t) =
      .ok secret := by
  rw [opt_split_take t n htn tape secret]
  cases hL : (List.range t).map (optShare t tape secret) with
  | nil =>
    have hlen0 : ((List.range t).map (optShare t tape secret)).length = t := by
      rw [List.length_map, List.length_range]
    rw [hL] at hlen0
    simp at hlen0
    omega
  | cons first rest =>
    have hLl : (first :: rest).length = t := by
      rw [← hL, List.length_map, List.length_range]
    have hmemlen : ∀ x ∈ first :: rest, x.length = secret.length := by
      intro x hx
      rw [← hL] at hx
      obtain ⟨i, hi, rfl⟩ := List.mem_map.mp hx
      exact optShare_length t tape secret i
    have hfl : first.length = secret.length :=
      hmemlen first (List.mem_cons_self _ _)
    refine opt_reconstruct_ok t first rest (first :: rest) (by omega)
      (List.take_of_length_le (by omega)) ?_ secret hfl.symm ?_
    · rw [List.all_eq_true]
      intro x hx
      simp [hmemlen x hx, hfl]
    · intro b hb
      have hb2 : b < secret.length := by rw [hfl] at hb; exact hb
      have hmemb : secret.getD b 0 ∈ secret := by
        rw [List.getD_eq_getElem _ _ hb2]
        exact List.getElem_mem _
      have hs256 : secret.getD b 0 < 256 := hsec _ hmemb
      have hfold : ((first :: rest).enum.foldl (fun (acc : Int) (ip : Nat × List Nat) =>
          acc + ((ip.2.getD b 0 : Nat) : Int) * OptSSS.lagrange_coeff t ip.1) 0) =
          ∑ j ∈ Finset.range t, ((optShare t tape secret j).getD b 0 : ℤ) *
            OptSSS.lagrange_coeff t j := by
        rw [← hL, enum_map_range (optShare t tape secret) [] t, List.foldl_map,
          foldl_add_eq_sum (fun j => ((optShare t tape secret j).getD b 0 : ℤ) *
            OptSSS.lagrange_coeff t j) (List.range t) 0,
          list_range_sum, zero_add]
      have hterm2 : ∀ j ∈ Finset.range t,
          (((optShare t tape secret j).getD b 0 : ℕ) : ℤ) % 256 =
          (evalPolyInt (secret.getD b 0 :: (List.range (t - 1)).map (tape b))
            ((j : ℤ) + 1)) % 256 := by
        intro j hj
        have hjt : j < t := Finset.mem_range.mp hj
        rw [optShare_getD t tape secret j b hb2,
          Nat.mod_eq_of_lt (show j + 1 < 256 by omega), split_byte_eq,
          Int.emod_emod_of_dvd _ dvd_rfl]
        push_cast
        rfl
      have hlag := int_lagrange_at_zero t
        (secret.getD b 0 :: (List.range (t - 1)).map (tape b))
        (by rw [List.length_cons, List.length_map, List.length_range]; omega)
      rw [hfold, Int.emod_emod_of_dvd _ (by norm_num : (256 : ℤ) ∣ 65536),
        sum_mul_emod_congr (Finset.range t) _ _ _ hterm2, hlag, List.getD_cons_zero,
        Int.emod_eq_of_lt (by omega) (by omega)]
      omega

/-- Splitting the single byte `0` with `(k, n) = (2, 3)` under a coefficient
tape whose first draw is 102 (the first byte of the seed-42 stream). -/
theorem opt_split_single (tape : Nat → Nat → Nat) (h0 : tape 0 0 = 102) :
    OptSSS.split_secret 2 3 tape [0] = [[102], [204], [50]] := by
  have hb : ∀ x : Nat, OptSSS.split_byte 2 (tape 0) 0 x = (102 * x) % 256 := by
    intro x
    rw [OptSSS.split_byte]
    show ((0 : Nat) + tape 0 0 * x ^ (0 + 1)) % 256 = (102 * x) % 256
    rw [h0]
    congr 1
    ring
  rw [OptSSS.split_secret]
  show [[OptSSS.split_byte 2 (tape 0) 0 1], [OptSSS.split_byte 2 (tape 0) 0 2],
    [OptSSS.split_byte 2 (tape 0) 0 3]] = [[102], [204], [50]]
  rw [hb, hb, hb]

/-- C1 counterexample: the optimized path does not reconstruct from an
arbitrary `k`-subset.  A fresh `OptimizedShamirSecretSharing(2, 3)` instance
splits the byte string `[0]` into the shares `[[102], [204], [50]]` (the first
coefficient drawn from the seed-42 stream is 102), and reconstructing from the
subset made of shares 2 and 3 returns `[102]`, not `[0]`, because
`reconstruct_secret` re-labels the supplied shares with `x = i + 1`. -/
theorem optimized_subset_roundtrip_fails :
    OptSSS.init 2 3 = .ok ⟨2, 3, 0⟩ ∧
    ((⟨2, 3, 0⟩ : OptSSS.Instance).split [0]).1 = [[102], [204], [50]] ∧
    OptSSS.reconstruct_secret 2 [[204], [50]] = .ok [102] ∧
    (Except.ok [102] : Except String (List Nat)) ≠ .ok [0] := by
  refine ⟨by decide, ?_, by decide, by decide⟩
  show OptSSS.split_secret 2 3 ((⟨2, 3, 0⟩ : OptSSS.Instance).tape) [0] =
    [[102], [204], [50]]
  refine opt_split_single _ ?_
  show Np.rng42u8 0 = 102
  exact Np.rng42u8_zero

/-- C1: the round trip holds path by path in the following amended form.  On
the small-payload path (`ShamirSecretSharing`), reconstruction from any `k`
distinct shares of the `n` produced returns the secret exactly (for
`1 ≤ k ≤ n ≤ 257` and byte-valued input).  On the optimized path
(`OptimizedShamirSecretSharing`), reconstruction returns the secret when given
the first `k` shares in production order (`1 ≤ k ≤ n`, `k ≤ 255`); an
arbitrary `k`-subset is not supported there. -/
theorem secret_sharing_roundtrip_per_path :
    (∀ (k n : Nat) (tape : Nat → Nat → Nat) (secret : List Nat) (sel : List Nat),
      1 ≤ k → k ≤ n → n ≤ 257 → (∀ b ∈ secret, b < 256) →
      sel.Nodup → (∀ i ∈ sel, i < n) → k ≤ sel.length →
      ShamirSSS.reconstruct_secret k
        (sel.map (fun i => (ShamirSSS.split_secret k n tape secret).getD i [])) =
        .ok secret) ∧
    (∀ (t n : Nat) (tape : Nat → Nat → Nat) (secret : List Nat),
      1 ≤ t → t ≤ n → t ≤ 255 → (∀ b ∈ secret, b < 256) →
      OptSSS.reconstruct_secret t ((OptSSS.split_secret t n tape secret).take t) =
        .ok secret) :=
  ⟨fun k n tape secret sel hk hkn hn hsec hnd hlt hlen =>
    shamir_small_roundtrip k n hk hkn hn tape secret hsec sel hnd hlt hlen,
   fun t n tape secret ht htn ht255 hsec =>
    optimized_firstk_roundtrip t n ht htn ht255 tape secret hsec⟩

theorem secret_sharing_roundtrip_per_path_witness :
    ShamirSSS.reconstruct_secret 2
      ([2, 0].map (fun i =>
        (ShamirSSS.split_secret 2 3 (fun b p => b + p + 1) [7, 200]).getD i [])) =
      .ok [7, 200] ∧
    OptSSS.reconstruct_secret 2
      ((OptSSS.split_secret 2 3 (fun b p => b + p + 1) [7, 200]).take 2) =
      .ok [7, 200] :=
  ⟨secret_sharing_roundtrip_per_path.1 2 3 (fun b p => b + p + 1) [7, 200] [2, 0]
      (by decide) (by decide) (by decide) (by decide) (by decide) (by decide) (by decide),
   secret_sharing_roundtrip_per_path.2 2 3 (fun b p => b + p + 1) [7, 200]
      (by decide) (by decide) (by decide) (by decide)⟩

/-- C6: on genuine shares, `ShamirSecretSharing.reconstruct_secret` raises
exactly when fewer than `threshold` shares are supplied; with at least
`threshold` of the `n` produced shares it succeeds, so the facility-skipping
path in `reconstruct_secret_shares` is taken only below the threshold. -/
theorem reconstruct_errors_iff_insufficient (k n : Nat) (hk : 1 ≤ k) (hkn : k ≤ n)
    (hn : n ≤ 257) (tape : Nat → Nat → Nat) (secret : List Nat)
    (hsec : ∀ b ∈ secret, b < 256) (sel : List Nat) (hnodup : sel.Nodup)
    (hlt : ∀ i ∈ sel, i < n) :
    (∃ e, ShamirSSS.reconstruct_secret k
      (sel.map (fun i => (ShamirSSS.split_secret k n tape secret).getD i [])) =
      .error e) ↔ sel.length < k := by
  constructor
  · intro he
    obtain ⟨e, he⟩ := he
    by_contra hge
    rw [shamir_small_roundtrip k n hk hkn hn tape secret hsec sel hnodup hlt
      (by omega)] at he
    exact Except.noConfusion he
  · intro hlt2
    refine ⟨"Need at least threshold shares", ?_⟩
    rw [ShamirSSS.reconstruct_secret.eq_def,
      if_pos (by rw [List.length_map]; exact hlt2)]

theorem reconstruct_errors_iff_insufficient_witness :
    ∃ e, ShamirSSS.reconstruct_secret 2
      ([1].map (fun i =>
        (ShamirSSS.split_secret 2 3 (fun b p => b + p + 1) [7, 200]).getD i [])) =
      .error e :=
  (reconstruct_errors_iff_insufficient 2 3 (by decide) (by decide) (by decide)
    (fun b p => b + p + 1) [7, 200] (by decide) [1] (by decide) (by decide)).mpr
    (by decide)
